import Mathlib

/-!
Verification development for the splat engine of the xwin repository
(src/splat.rs): mapping resolution, parallel tree placement with
filtering, deduplication and casing-repair symlinks, and the finalize
pass that repairs include-directive case mismatches.

Machine integers are modelled as Nat with explicit reduction mod 2^64.
Filesystem effects are modelled as a trace of operations together with
an oracle deciding which operations succeed.  The rayon-parallel loop
over mappings is serialized; the shared dedup registry is protected in
the source by a mutex whose critical section (contains + insert) is
modelled as the single atomic step tryInsert.
-/

namespace Xwin

/-! ## 64-bit arithmetic (Nat reduced mod 2^64) -/

def M64 : Nat := 2 ^ 64

def add64 (a b : Nat) : Nat := (a + b) % M64

def sub64 (a b : Nat) : Nat := (a + (M64 - b % M64)) % M64

def mul64 (a b : Nat) : Nat := (a * b) % M64

def rotl64 (x r : Nat) : Nat := ((x <<< r) % M64) ||| (x >>> (64 - r))

/-! ## XxHash64 (the hash behind twox_hash::XxHash64, seedable, one-shot
over a byte list; write_u8 streaming in the source is byte-at-a-time, so
hashing the list of written bytes is the same function) -/

def xxPrime1 : Nat := 11400714785074694791
def xxPrime2 : Nat := 14029467366897019727
def xxPrime3 : Nat := 1609587929392839161
def xxPrime4 : Nat := 9650029242287828579
def xxPrime5 : Nat := 2870177450012600261

def xxRound (acc input : Nat) : Nat :=
  mul64 (rotl64 (add64 acc (mul64 input xxPrime2)) 31) xxPrime1

def xxMergeRound (h v : Nat) : Nat :=
  add64 (mul64 (h ^^^ xxRound 0 v) xxPrime1) xxPrime4

def readU64LE (b0 b1 b2 b3 b4 b5 b6 b7 : Nat) : Nat :=
  b0 + b1 * 2 ^ 8 + b2 * 2 ^ 16 + b3 * 2 ^ 24 + b4 * 2 ^ 32 +
    b5 * 2 ^ 40 + b6 * 2 ^ 48 + b7 * 2 ^ 56

def readU32LE (b0 b1 b2 b3 : Nat) : Nat :=
  b0 + b1 * 2 ^ 8 + b2 * 2 ^ 16 + b3 * 2 ^ 24

/-- 32-byte stripe loop of XxHash64: runs while at least 32 bytes remain. -/
def xxStripes : Nat × Nat × Nat × Nat → List Nat → (Nat × Nat × Nat × Nat) × List Nat
  | (v1, v2, v3, v4),
      b0 :: b1 :: b2 :: b3 :: b4 :: b5 :: b6 :: b7 ::
      c0 :: c1 :: c2 :: c3 :: c4 :: c5 :: c6 :: c7 ::
      d0 :: d1 :: d2 :: d3 :: d4 :: d5 :: d6 :: d7 ::
      e0 :: e1 :: e2 :: e3 :: e4 :: e5 :: e6 :: e7 :: rest =>
    xxStripes
      (xxRound v1 (readU64LE b0 b1 b2 b3 b4 b5 b6 b7),
       xxRound v2 (readU64LE c0 c1 c2 c3 c4 c5 c6 c7),
       xxRound v3 (readU64LE d0 d1 d2 d3 d4 d5 d6 d7),
       xxRound v4 (readU64LE e0 e1 e2 e3 e4 e5 e6 e7)) rest
  | v, bs => (v, bs)

/-- 8-byte tail loop of XxHash64. -/
def xxTail8 : Nat → List Nat → Nat × List Nat
  | h, b0 :: b1 :: b2 :: b3 :: b4 :: b5 :: b6 :: b7 :: rest =>
    xxTail8 (add64 (mul64 (rotl64 (h ^^^ xxRound 0 (readU64LE b0 b1 b2 b3 b4 b5 b6 b7)) 27) xxPrime1) xxPrime4) rest
  | h, bs => (h, bs)

/-- 4-byte tail loop of XxHash64. -/
def xxTail4 : Nat → List Nat → Nat × List Nat
  | h, b0 :: b1 :: b2 :: b3 :: rest =>
    xxTail4 (add64 (mul64 (rotl64 (h ^^^ mul64 (readU32LE b0 b1 b2 b3) xxPrime1) 23) xxPrime2) xxPrime3) rest
  | h, bs => (h, bs)

/-- Single-byte tail loop of XxHash64. -/
def xxTail1 : Nat → List Nat → Nat
  | h, [] => h
  | h, b :: rest => xxTail1 (mul64 (rotl64 (h ^^^ mul64 b xxPrime5) 11) xxPrime1) rest

def xxAvalanche (h0 : Nat) : Nat :=
  let h1 := mul64 (h0 ^^^ (h0 >>> 33)) xxPrime2
  let h2 := mul64 (h1 ^^^ (h1 >>> 29)) xxPrime3
  h2 ^^^ (h2 >>> 32)

def xxh64 (seed : Nat) (input : List Nat) : Nat :=
  let len := input.length
  let hrest : Nat × List Nat :=
    if 32 ≤ len then
      let sr := xxStripes
        (add64 (add64 seed xxPrime1) xxPrime2, add64 seed xxPrime2, seed, sub64 seed xxPrime1) input
      match sr with
      | ((v1, v2, v3, v4), rest) =>
        let h := add64 (add64 (add64 (rotl64 v1 1) (rotl64 v2 7)) (rotl64 v3 12)) (rotl64 v4 18)
        (xxMergeRound (xxMergeRound (xxMergeRound (xxMergeRound h v1) v2) v3) v4, rest)
    else (add64 seed xxPrime5, input)
  let h := add64 hrest.1 len
  let t8 := xxTail8 h hrest.2
  let t4 := xxTail4 t8.1 t8.2
  xxAvalanche (xxTail1 t4.1 t4.2)

/-! ## ASCII character helpers (Rust char / str methods used by splat.rs) -/

def isAsciiUpper (c : Char) : Bool := 65 ≤ c.toNat && c.toNat ≤ 90

def isAsciiDigitC (c : Char) : Bool := 48 ≤ c.toNat && c.toNat ≤ 57

/-- Rust char::to_ascii_lowercase. -/
def toAsciiLowerChar (c : Char) : Char :=
  if isAsciiUpper c then Char.ofNat (c.toNat + 32) else c

/-- Rust str::to_ascii_lowercase. -/
def toAsciiLowerStr (s : String) : String := String.mk (s.data.map toAsciiLowerChar)

def hasAsciiUppercase (s : String) : Bool := s.data.any isAsciiUpper

def listIsPre : List Char → List Char → Bool
  | [], _ => true
  | _ :: _, [] => false
  | a :: as, b :: bs => a == b && listIsPre as bs

/-- Rust str::ends_with, character-wise. -/
def strEndsWith (s suf : String) : Bool := listIsPre suf.data.reverse s.data.reverse

/-- Rust str::strip_suffix with a string pattern. -/
def stripSuffixOpt (s suf : String) : Option String :=
  if strEndsWith s suf then some (String.mk (s.data.take (s.data.length - suf.data.length)))
  else none

/-- Rust str::strip_suffix with the char pattern (one trailing decimal digit). -/
def stripTrailingDigit (s : String) : Option String :=
  match s.data.getLast? with
  | some c => if isAsciiDigitC c then some (String.mk s.data.dropLast) else none
  | none => none

/-- splat.rs calc_lower_hash: XxHash64 with seed 0 over each char of the
path ASCII-lowercased and truncated to its low byte (the `as u8` cast). -/
def calc_lower_hash (path : String) : Nat :=
  xxh64 0 (path.data.map fun c => (toAsciiLowerChar c).toNat % 256)

/-! ## Paths

A path is a list of segments; display joins them with "/". -/

abbrev PathBuf := List String

/-- PathBuf::push / Path::join with a single segment. -/
def pjoin (p : PathBuf) (s : String) : PathBuf := p ++ [s]

/-- PathBuf::pop. -/
def ppop (p : PathBuf) : PathBuf := p.dropLast

/-- Path::file_name (the last segment, if any). -/
def plast (p : PathBuf) : Option String := p.getLast?

def pathStr (p : PathBuf) : String := String.intercalate "/" p

/-- Strip a path prefix segment-wise (Path::strip_prefix). -/
def stripPathPre : PathBuf → PathBuf → Option PathBuf
  | [], p => some p
  | _ :: _, [] => none
  | a :: pre, b :: p => if a = b then stripPathPre pre p else none

/-! ## FileTree (external collaborator, consumed read-only)

Modelled from the spec: a recursive directory snapshot holding ordered
(name, size) file entries and named subdirectory subtrees; it supplies a
totalBytes statistic and subtree navigation by relative path. -/

inductive FileTree where
  | mk (files : List (String × Nat)) (dirs : List (String × FileTree))

def FileTree.files : FileTree → List (String × Nat)
  | .mk fs _ => fs

def FileTree.dirs : FileTree → List (String × FileTree)
  | .mk _ ds => ds

mutual

/-- Modelled from the spec: the totalBytes component of FileTree::stats,
the byte sum of every file in the subtree. -/
def FileTree.totalBytes : FileTree → Nat
  | .mk fs ds => (fs.map Prod.snd).sum + totalBytesDirs ds

def totalBytesDirs : List (String × FileTree) → Nat
  | [] => 0
  | (_, t) :: rest => FileTree.totalBytes t + totalBytesDirs rest

end

/-- Generic association-list lookup (HashMap::get on the modelled maps). -/
def assocFind {α : Type} (l : List (Nat × α)) (k : Nat) : Option α :=
  match l with
  | [] => none
  | (k2, v) :: rest => if k2 = k then some v else assocFind rest k

/-- Modelled from the spec: FileTree subtree navigation by relative path;
absent segments yield none. -/
def FileTree.subtree : FileTree → List String → Option FileTree
  | t, [] => some t
  | t, d :: rest =>
    match (t.dirs.find? fun e => e.1 = d) with
    | some e => e.2.subtree rest
    | none => none

/-! ## Configuration, payloads, roots (splat.rs data model) -/

structure SplatConfig where
  include_debug_libs : Bool
  include_debug_symbols : Bool
  disable_symlinks : Bool
  preserve_ms_arch_notation : Bool
  output : PathBuf
  copy : Bool

structure SplatRoots where
  crt : PathBuf
  sdk : PathBuf
  src : PathBuf

inductive PayloadKind where
  | CrtHeaders | CrtLibs | SdkHeaders | SdkLibs | SdkStoreLibs | Ucrt
deriving DecidableEq

inductive Variant where
  | Desktop | OneCore | Store | Spectre
deriving DecidableEq

/-- Modelled from the spec: the Variant bit-flag encoding lives outside
splat.rs; each variant is a distinct bit of the u32 request set, Spectre
being the modifier bit. -/
def Variant.asU32 : Variant → Nat
  | .Desktop => 1
  | .OneCore => 2
  | .Store => 4
  | .Spectre => 8

inductive Arch where
  | x86 | x86_64 | aarch | aarch64
deriving DecidableEq

/-- Modelled from the spec: the architecture bit-flag encoding lives
outside splat.rs. -/
def Arch.asU32 : Arch → Nat
  | .x86 => 1
  | .x86_64 => 2
  | .aarch => 4
  | .aarch64 => 8

/-- Modelled from the spec: the vendor-native architecture token. -/
def Arch.as_ms_str : Arch → String
  | .x86 => "x86"
  | .x86_64 => "x64"
  | .aarch => "arm"
  | .aarch64 => "arm64"

/-- Modelled from the spec: the normalized architecture token. -/
def Arch.as_str : Arch → String
  | .x86 => "x86"
  | .x86_64 => "x86_64"
  | .aarch => "aarch"
  | .aarch64 => "aarch64"

/-- Modelled from the spec: Arch::iter enumerates the arches whose bit is
set in the request mask. -/
def Arch.iter (arches : Nat) : List Arch :=
  [Arch.x86, Arch.x86_64, Arch.aarch, Arch.aarch64].filter
    fun a => decide (arches &&& a.asU32 ≠ 0)

structure Payload where
  filename : String
  kind : PayloadKind
  variant : Option Variant
  target_arch : Option Arch

structure Mapping where
  src : PathBuf
  target : PathBuf
  tree : FileTree
  kind : PayloadKind
  variant : Option Variant

/-! ## Mapping resolution (splat.rs lines 86-255) -/

/-- The destination arch segment: vendor token when
preserve_ms_arch_notation is set, normalized token otherwise. -/
def archOut (config : SplatConfig) (arch : Arch) : String :=
  if config.preserve_ms_arch_notation then arch.as_ms_str else arch.as_str

/-- splat.rs get_tree closure: strip the staging root, then the payload
subdirectory, then navigate the FileTree. -/
def get_tree (roots : SplatRoots) (filename : String) (tree : FileTree)
    (src_path : PathBuf) : Except String FileTree :=
  match stripPathPre roots.src src_path with
  | none => .error "incorrect src root"
  | some p1 =>
    match stripPathPre [filename] p1 with
    | none => .error "incorrect src subdir"
    | some p2 =>
      match tree.subtree p2 with
      | some t => .ok t
      | none => .error ("missing expected subtree " ++ pathStr p2)

/-- The mappings produced for one payload (the big match on payload.kind
in splat.rs). -/
def resolveMappings (config : SplatConfig) (roots : SplatRoots) (payload : Payload)
    (tree : FileTree) (arches variants : Nat) : Except String (List Mapping) :=
  let src0 := pjoin roots.src payload.filename
  match payload.kind with
  | .CrtHeaders =>
    let src := pjoin src0 "include"
    match get_tree roots payload.filename tree src with
    | .error e => .error e
    | .ok t => .ok [⟨src, pjoin roots.crt "include", t, payload.kind, payload.variant⟩]
  | .CrtLibs =>
    let src1 := pjoin src0 "lib"
    let tgt1 := pjoin roots.crt "lib"
    let spectre := decide (variants &&& Variant.Spectre.asU32 ≠ 0)
    match payload.variant with
    | none => .error "CRT libs did not specify a variant"
    | some Variant.Spectre => .error "unreachable: Spectre is only a modifier"
    | some v =>
      let sv : PathBuf × PathBuf :=
        match v with
        | Variant.OneCore =>
          let p := if spectre then (pjoin src1 "spectre", pjoin tgt1 "spectre") else (src1, tgt1)
          (pjoin p.1 "onecore", pjoin p.2 "onecore")
        | Variant.Desktop =>
          if spectre then (pjoin src1 "spectre", pjoin tgt1 "spectre") else (src1, tgt1)
        | _ => (src1, tgt1)
      match payload.target_arch with
      | none => .error "CRT libs did not specify an architecture"
      | some arch =>
        let src := pjoin sv.1 arch.as_ms_str
        let target := pjoin sv.2 (archOut config arch)
        match get_tree roots payload.filename tree src with
        | .error e => .error e
        | .ok t => .ok [⟨src, target, t, payload.kind, payload.variant⟩]
  | .SdkHeaders =>
    let src := pjoin src0 "include"
    match get_tree roots payload.filename tree src with
    | .error e => .error e
    | .ok t => .ok [⟨src, pjoin roots.sdk "include", t, payload.kind, payload.variant⟩]
  | .SdkLibs =>
    let src1 := pjoin (pjoin src0 "lib") "um"
    let tgt1 := pjoin (pjoin roots.sdk "lib") "um"
    match payload.target_arch with
    | none => .error "SDK libs did not specify an architecture"
    | some arch =>
      let src := pjoin src1 arch.as_ms_str
      let target := pjoin tgt1 (archOut config arch)
      match get_tree roots payload.filename tree src with
      | .error e => .error e
      | .ok t => .ok [⟨src, target, t, payload.kind, payload.variant⟩]
  | .SdkStoreLibs =>
    let src1 := pjoin (pjoin src0 "lib") "um"
    let tgt1 := pjoin (pjoin roots.sdk "lib") "um"
    (Arch.iter arches).mapM fun arch => do
      let src := pjoin src1 arch.as_ms_str
      let t ← get_tree roots payload.filename tree src
      pure (⟨src, pjoin tgt1 (archOut config arch), t, payload.kind, payload.variant⟩ : Mapping)
  | .Ucrt => do
    let inc_src := pjoin (pjoin src0 "include") "ucrt"
    let t ← get_tree roots payload.filename tree inc_src
    let headerMapping : Mapping :=
      ⟨inc_src, pjoin (pjoin roots.sdk "include") "ucrt", t, payload.kind, payload.variant⟩
    let src1 := pjoin (pjoin src0 "lib") "ucrt"
    let tgt1 := pjoin (pjoin roots.sdk "lib") "ucrt"
    let libMappings ← (Arch.iter arches).mapM fun arch => do
      let src := pjoin src1 arch.as_ms_str
      let t ← get_tree roots payload.filename tree src
      pure (⟨src, pjoin tgt1 (archOut config arch), t, payload.kind, payload.variant⟩ : Mapping)
    pure (headerMapping :: libMappings)

/-! ## Tree placement engine (splat.rs lines 260-426)

Filesystem side effects are a trace of operations; an oracle decides
which operations succeed.  A failing operation aborts the current
mapping with the context message built at the call site, exactly like
the ? operator on the with_context results in the source. -/

inductive FsOp where
  | createDirAll (tar : PathBuf)
  | copyFile (src tar : PathBuf)
  | renameFile (src tar : PathBuf)
  | symlinkFile (original : String) (link : PathBuf)
  | removeFile (p : PathBuf)
deriving DecidableEq

abbrev FsOracle := FsOp → Bool

/-- The destination of a physical file transfer, if the operation is one. -/
def transferDest : FsOp → Option PathBuf
  | .copyFile _ tar => some tar
  | .renameFile _ tar => some tar
  | _ => none

/-- The link path of a symlink operation, if the operation is one. -/
def linkDest : FsOp → Option PathBuf
  | .symlinkFile _ link => some link
  | _ => none

structure EngineState where
  registry : List (Nat × PathBuf)
  progressLen : Nat
  progress : Nat
  trace : List FsOp
  logs : List String
deriving DecidableEq

/-- Attempt one filesystem operation: record it on success, abort with
the given context message on failure. -/
def attemptOp (fs : FsOracle) (st : EngineState) (op : FsOp) (msg : String) :
    EngineState × Option String :=
  if fs op then ({ st with trace := st.trace ++ [op] }, none) else (st, some msg)

/-- The CrtLibs/Ucrt file filter of splat.rs lines 292-311: skip .pdb
files unless include_debug_symbols, and skip .lib files whose base name
ends in d, in d_netcore, or in one decimal digit preceded by d, unless
include_debug_libs. -/
def skipFile (include_debug_symbols include_debug_libs : Bool) (fname : String) : Bool :=
  (!include_debug_symbols && strEndsWith fname ".pdb") ||
  (!include_debug_libs &&
    (match stripSuffixOpt fname ".lib" with
     | some stripped =>
       strEndsWith stripped "d" || strEndsWith stripped "d_netcore" ||
       (match stripTrailingDigit stripped with
        | some s => strEndsWith s "d"
        | none => false)
     | none => false))

/-- The angry-lib table of splat.rs lines 355-359. -/
def angryLib (fnamestr : String) : Option String :=
  match stripSuffixOpt fnamestr ".lib" with
  | some s =>
    if s = "libcmt" then some "LIBCMT.lib"
    else if s = "msvcrt" then some "MSVCRT.lib"
    else if s = "oldnames" then some "OLDNAMES.lib"
    else none
  | none => none

def containsKey (reg : List (Nat × PathBuf)) (k : Nat) : Bool :=
  reg.any fun e => e.1 == k

/-- The dedup critical section of splat.rs lines 320-326: under the
registry mutex, check membership and insert if absent; the Bool is the
write decision. -/
def tryInsert (reg : List (Nat × PathBuf)) (k : Nat) (p : PathBuf) :
    List (Nat × PathBuf) × Bool :=
  if containsKey reg k then (reg, false) else ((k, p) :: reg, true)

/-- Processing of a single file entry (splat.rs lines 286-394): progress
inc, CrtLibs/Ucrt filter, SdkHeaders dedup gate, copy-or-move transfer,
then the kind-dependent casing-repair symlink. -/
def processFile (config : SplatConfig) (fs : FsOracle) (kind : PayloadKind)
    (src tar : PathBuf) (st : EngineState) (fname : String) (size : Nat) :
    EngineState × Option String :=
  let st := { st with progress := st.progress + size }
  if (kind = PayloadKind.CrtLibs ∨ kind = PayloadKind.Ucrt) ∧
      skipFile config.include_debug_symbols config.include_debug_libs fname = true then
    ({ st with logs := st.logs ++ ["skipping " ++ fname] }, none)
  else
    let tarf := pjoin tar fname
    let stw : EngineState × Bool :=
      if kind = PayloadKind.SdkHeaders then
        let name_hash := calc_lower_hash fname
        let rw := tryInsert st.registry name_hash tarf
        ({ st with registry := rw.1 }, rw.2)
      else (st, true)
    if stw.2 then
      let st := stw.1
      let src_path := pjoin src fname
      let trans := if config.copy then FsOp.copyFile src_path tarf else FsOp.renameFile src_path tarf
      let tmsg :=
        if config.copy then "failed to copy " ++ pathStr src_path ++ " to " ++ pathStr tarf
        else "failed to move " ++ pathStr src_path ++ " to " ++ pathStr tarf
      match attemptOp fs st trans tmsg with
      | (st, some e) => (st, some e)
      | (st, none) =>
        match kind with
        | .CrtHeaders | .Ucrt => (st, none)
        | .SdkHeaders => (st, none)
        | .CrtLibs =>
          match angryLib fname with
          | some angry =>
            let link := pjoin (ppop tarf) angry
            attemptOp fs st (.symlinkFile fname link)
              ("unable to symlink from " ++ pathStr link ++ " to " ++ fname)
          | none => (st, none)
        | .SdkLibs | .SdkStoreLibs =>
          if hasAsciiUppercase fname then
            let link := pjoin (ppop tarf) (toAsciiLowerStr fname)
            attemptOp fs st (.symlinkFile fname link)
              ("unable to symlink from " ++ pathStr link ++ " to " ++ fname)
          else (st, none)
    else (stw.1, none)

/-- Fold processFile over the file entries of one directory frame,
aborting at the first failure. -/
def processFiles (config : SplatConfig) (fs : FsOracle) (kind : PayloadKind)
    (src tar : PathBuf) : EngineState → List (String × Nat) → EngineState × Option String
  | st, [] => (st, none)
  | st, (fname, size) :: rest =>
    match processFile config fs kind src tar st fname size with
    | (st, some e) => (st, some e)
    | (st, none) => processFiles config fs kind src tar st rest

structure DirFrame where
  src : PathBuf
  tar : PathBuf
  tree : FileTree

mutual

/-- Weight of a FileTree: number of directory nodes, the measure that
decreases at each worklist step. -/
def ftWeight : FileTree → Nat
  | .mk _ ds => 1 + ftWeightDirs ds

def ftWeightDirs : List (String × FileTree) → Nat
  | [] => 0
  | (_, t) :: rest => ftWeight t + ftWeightDirs rest

end

def stackWeight : List DirFrame → Nat
  | [] => 0
  | f :: rest => ftWeight f.tree + stackWeight rest

/-- Total bytes of the subtrees still on the worklist. -/
def stackBytes : List DirFrame → Nat
  | [] => 0
  | f :: rest => f.tree.totalBytes + stackBytes rest

/-- One worklist loop of splat.rs lines 276-417, fueled: pop a frame,
create its destination directory, process its files, then either prune
(CrtLibs Store mapping when Store is not requested, advancing progress
by the pruned bytes) or push the subdirectory frames.  The fuel is an
upper bound on the loop step count; processStack supplies stackWeight,
which lemma processStackF_fuel proves sufficient. -/
def processStackF (config : SplatConfig) (fs : FsOracle) (kind : PayloadKind)
    (variant : Option Variant) (variants : Nat) :
    Nat → EngineState → List DirFrame → EngineState × Option String
  | 0, st, _ => (st, none)
  | _ + 1, st, [] => (st, none)
  | fuel + 1, st, frame :: stack =>
    match attemptOp fs st (.createDirAll frame.tar) ("unable to create " ++ pathStr frame.tar) with
    | (st, some e) => (st, some e)
    | (st, none) =>
      match processFiles config fs kind frame.src frame.tar st frame.tree.files with
      | (st, some e) => (st, some e)
      | (st, none) =>
        if kind = PayloadKind.CrtLibs ∧ variant = some Variant.Store ∧
            variants &&& Variant.Store.asU32 = 0 then
          let st := { st with logs := st.logs ++ ["skipping CRT subdirs"],
                              progress := st.progress + totalBytesDirs frame.tree.dirs }
          processStackF config fs kind variant variants fuel st stack
        else
          processStackF config fs kind variant variants fuel st
            ((frame.tree.dirs.map fun d =>
                DirFrame.mk (pjoin frame.src d.1) (pjoin frame.tar d.1) d.2).reverse ++ stack)

def processStack (config : SplatConfig) (fs : FsOracle) (kind : PayloadKind)
    (variant : Option Variant) (variants : Nat) (st : EngineState) (stack : List DirFrame) :
    EngineState × Option String :=
  processStackF config fs kind variant variants (stackWeight stack) st stack

/-- Process one mapping: run the worklist from its root frame. -/
def processMapping (config : SplatConfig) (fs : FsOracle) (variants : Nat)
    (st : EngineState) (m : Mapping) : EngineState × Option String :=
  processStack config fs m.kind m.variant variants st [⟨m.src, m.target, m.tree⟩]

/-- The rayon into_par_iter over mappings, serialized; each mapping's
Result is collected, mirroring collect_into_vec. -/
def processMappings (config : SplatConfig) (fs : FsOracle) (variants : Nat) :
    EngineState → List Mapping → EngineState × List (Option String)
  | st, [] => (st, [])
  | st, m :: rest =>
    match processMapping config fs variants st m with
    | (st, r) =>
      match processMappings config fs variants st rest with
      | (st, rs) => (st, r :: rs)

structure SplatOutcome where
  state : EngineState
  results : List (Option String)
deriving DecidableEq

/-- splat (splat.rs lines 54-426): invalidate the unpack marker when
moving, resolve the mappings, reset the progress length to the summed
subtree bytes, process every mapping collecting the per-mapping Results
into a vector, and return Ok unconditionally (the collected Results are
never inspected by the source). -/
def splat (config : SplatConfig) (roots : SplatRoots) (payload : Payload)
    (tree : FileTree) (arches variants : Nat) (fs : FsOracle) (st0 : EngineState) :
    Except String SplatOutcome :=
  let src := pjoin roots.src payload.filename
  let st0 :=
    if config.copy then st0
    else
      let marker := pjoin src ".unpack"
      if fs (.removeFile marker) then { st0 with trace := st0.trace ++ [.removeFile marker] }
      else { st0 with logs := st0.logs ++ ["Failed to remove " ++ pathStr marker] }
  match resolveMappings config roots payload tree arches variants with
  | .error e => .error e
  | .ok mappings =>
    let st0 := { st0 with progress := 0,
                          progressLen := (mappings.map fun m => m.tree.totalBytes).sum }
    let pr := processMappings config fs variants st0 mappings
    .ok ⟨pr.1, pr.2⟩

/-! ## UTF-8 (std::str::from_utf8 on captured include names) -/

def isCont (b : Nat) : Bool := 128 ≤ b && b ≤ 191

/-- Decode a byte list as UTF-8 scalar values; none on any invalid
sequence (overlong forms, surrogates and values beyond 0x10FFFF are
rejected by the leading-byte and second-byte ranges, as in Rust). -/
def utf8Decode : List Nat → Option (List Nat)
  | [] => some []
  | b :: rest =>
    if b ≤ 127 then
      match utf8Decode rest with
      | some cs => some (b :: cs)
      | none => none
    else if 194 ≤ b && b ≤ 223 then
      match rest with
      | c1 :: rest2 =>
        if isCont c1 then
          match utf8Decode rest2 with
          | some cs => some (((b - 192) * 64 + (c1 - 128)) :: cs)
          | none => none
        else none
      | [] => none
    else if 224 ≤ b && b ≤ 239 then
      match rest with
      | c1 :: c2 :: rest2 =>
        let c1ok :=
          if b = 224 then 160 ≤ c1 && c1 ≤ 191
          else if b = 237 then 128 ≤ c1 && c1 ≤ 159
          else isCont c1
        if c1ok && isCont c2 then
          match utf8Decode rest2 with
          | some cs => some (((b - 224) * 4096 + (c1 - 128) * 64 + (c2 - 128)) :: cs)
          | none => none
        else none
      | _ => none
    else if 240 ≤ b && b ≤ 244 then
      match rest with
      | c1 :: c2 :: c3 :: rest2 =>
        let c1ok :=
          if b = 240 then 144 ≤ c1 && c1 ≤ 191
          else if b = 244 then 128 ≤ c1 && c1 ≤ 143
          else isCont c1
        if c1ok && isCont c2 && isCont c3 then
          match utf8Decode rest2 with
          | some cs =>
            some (((b - 240) * 262144 + (c1 - 128) * 4096 + (c2 - 128) * 64 + (c3 - 128)) :: cs)
          | none => none
        else none
      | _ => none
    else none

def utf8ToStr (bs : List Nat) : Option String :=
  match utf8Decode bs with
  | some cs => some (String.mk (cs.map Char.ofNat))
  | none => none

/-- name.rfind of the slash then the slice after it (finalize_splat
lines 481-484): the part of the name after its last slash. -/
def afterLastSlash (s : String) : String :=
  String.mk (s.data.reverse.takeWhile fun c => c ≠ '/').reverse

/-! ## The include regex

A faithful byte scanner for the source pattern matching a "#include"
literal, one or more whitespace bytes, an opening quote or angle
bracket, a nonempty greedy run of bytes other than quote and closing
angle bracket (the capture), and an optional closing delimiter, with
leftmost non-overlapping matches.  The source regex's class of
whitespace also admits non-ASCII unicode whitespace; the scanner
accepts the ASCII whitespace bytes. -/

def isWsB (b : Nat) : Bool := b = 32 || b = 9 || b = 10 || b = 13 || b = 11 || b = 12

def includeLit : List Nat := [35, 105, 110, 99, 108, 117, 100, 101]

/-- Match a literal byte sequence, returning the remainder. -/
def matchLit : List Nat → List Nat → Option (List Nat)
  | [], bs => some bs
  | _ :: _, [] => none
  | l :: ls, b :: bs => if l = b then matchLit ls bs else none

def takeWsStar : List Nat → List Nat
  | [] => []
  | b :: bs => if isWsB b then takeWsStar bs else b :: bs

/-- Greedy run of bytes other than quote (34) and closing angle (62). -/
def takeBody : List Nat → List Nat × List Nat
  | [] => ([], [])
  | b :: bs =>
    if b = 34 || b = 62 then ([], b :: bs)
    else
      match takeBody bs with
      | (r, rest) => (b :: r, rest)

/-- Try to match one include directive at the head of the input,
returning the capture and the remainder after the match. -/
def tryMatchInclude (bs : List Nat) : Option (List Nat × List Nat) :=
  match matchLit includeLit bs with
  | none => none
  | some r1 =>
    match r1 with
    | [] => none
    | w :: r2 =>
      if isWsB w then
        match takeWsStar r2 with
        | [] => none
        | o :: r4 =>
          if o = 34 || o = 60 then
            match takeBody r4 with
            | ([], _) => none
            | (cap, rest) =>
              match rest with
              | c :: rest2 => if c = 34 || c = 62 then some (cap, rest2) else some (cap, rest)
              | [] => some (cap, [])
          else none
      else none

/-- Fueled leftmost non-overlapping scan; scanCaptures supplies the
input length as fuel, which lemma scanCapturesF_fuel proves sufficient
since every match consumes at least one byte. -/
def scanCapturesF : Nat → List Nat → List (List Nat)
  | 0, _ => []
  | fuel + 1, bs =>
    match tryMatchInclude bs with
    | some (cap, rest) => cap :: scanCapturesF fuel rest
    | none =>
      match bs with
      | [] => []
      | _ :: t => scanCapturesF fuel t

/-- All capture groups of the include regex over the file contents, in
order (regex captures_iter). -/
def scanCaptures (bs : List Nat) : List (List Nat) := scanCapturesF bs.length bs

/-! ## Finalize pass (splat.rs lines 434-524) -/

/-- HashSet::insert modelled on an insertion-ordered list. -/
def setInsert (s : List String) (x : String) : List String :=
  if s.contains x then s else s ++ [x]

/-- Seed of the working set (finalize_splat lines 447-453): for every
registered path whose file name contains an uppercase ASCII character,
its lowercased file name. -/
def seedIncludes (files : List (Nat × PathBuf)) : List String :=
  files.foldl
    (fun s e =>
      match plast e.2 with
      | some fname => if hasAsciiUppercase fname then setInsert s (toAsciiLowerStr fname) else s
      | none => s)
    []

/-- Add the captures of one file to the working set; a capture that is
not valid UTF-8 aborts with the encoding error message of the source. -/
def addCaptures (fpath : PathBuf) : List String → List (List Nat) → Except String (List String)
  | incs, [] => .ok incs
  | incs, cap :: rest =>
    match utf8ToStr cap with
    | none => .error (pathStr fpath ++ " contained an include with non-utf8 characters")
    | some name => addCaptures fpath (setInsert incs (afterLastSlash name)) rest

/-- Scan every registered file for include directives (finalize_splat
lines 472-492); a failing read aborts with the read error message. -/
def scanFiles (fsRead : PathBuf → Option (List Nat)) :
    List String → List PathBuf → Except String (List String)
  | incs, [] => .ok incs
  | incs, p :: rest =>
    match fsRead p with
    | none => .error ("unable to read " ++ pathStr p)
    | some contents =>
      match addCaptures p incs (scanCaptures contents) with
      | .error e => .error e
      | .ok incs2 => scanFiles fsRead incs2 rest

/-- Resolve every name of the working set against the registry
(finalize_splat lines 496-517): on a hit whose on-disk name differs,
symlink the referenced name to it; on a miss, log and skip. -/
def resolveIncludes (fs : FsOracle) (files : List (Nat × PathBuf)) :
    List FsOp × List String → List String → (List FsOp × List String) × Option String
  | acc, [] => (acc, none)
  | acc, inc :: rest =>
    let lower_hash := calc_lower_hash inc
    match assocFind files lower_hash with
    | some disk_name =>
      match plast disk_name with
      | some fname =>
        if fname ≠ inc then
          let link := pjoin (ppop disk_name) inc
          if fs (.symlinkFile fname link) then
            resolveIncludes fs files (acc.1 ++ [.symlinkFile fname link], acc.2) rest
          else (acc, some ("unable to symlink from " ++ pathStr link ++ " to " ++ fname))
        else resolveIncludes fs files acc rest
      | none => resolveIncludes fs files acc rest
    | none =>
      resolveIncludes fs files
        (acc.1, acc.2 ++ ["SDK include for " ++ inc ++ " was not found in the SDK headers"]) rest

/-- finalize_splat: seed the working set, scan every registered file,
resolve the set against the registry, then the fixed GL symlink. -/
def finalize_splat (roots : SplatRoots) (files : List (Nat × PathBuf))
    (fsRead : PathBuf → Option (List Nat)) (fs : FsOracle) :
    Except String (List FsOp × List String) :=
  let includes0 := seedIncludes files
  match scanFiles fsRead includes0 (files.map Prod.snd) with
  | .error e => .error e
  | .ok includes =>
    match resolveIncludes fs files ([], []) includes with
    | (_, some e) => .error e
    | (acc, none) =>
      let gl := pjoin (pjoin (pjoin roots.sdk "include") "um") "GL"
      if fs (.symlinkFile "gl" gl) then .ok (acc.1 ++ [FsOp.symlinkFile "gl" gl], acc.2)
      else .error ("unable to symlink from " ++ pathStr gl ++ " to gl")

/-! ## Event-level model of the SdkHeaders dedup protocol

Concurrent workers serialize at the registry mutex; a run is any
sequence of per-file critical sections, each the atomic tryInsert used
by processFile.  runDedup replays such a sequence of (filename,
destination) events and records each event's write decision. -/

def keyOf (e : String × PathBuf) : Nat := calc_lower_hash e.1

def runDedup : List (Nat × PathBuf) → List (String × PathBuf) →
    List ((String × PathBuf) × Bool) × List (Nat × PathBuf)
  | reg, [] => ([], reg)
  | reg, e :: evs =>
    match tryInsert reg (keyOf e) e.2 with
    | (reg2, w) =>
      match runDedup reg2 evs with
      | (flags, regF) => ((e, w) :: flags, regF)

/-- Number of events of a given DedupKey whose critical section decided
to write. -/
def countWrites (flags : List ((String × PathBuf) × Bool)) (k : Nat) : Nat :=
  (flags.filter fun fe => keyOf fe.1 == k && fe.2).length

/-! ## Lemmas -/

theorem calc_lower_hash_bytes (s : String) :
    calc_lower_hash s = xxh64 0 ((s.data.map toAsciiLowerChar).map fun c => c.toNat % 256) := by
  simp only [calc_lower_hash, List.map_map]
  rfl

theorem calc_lower_hash_congr (s1 s2 : String)
    (h : s1.data.map toAsciiLowerChar = s2.data.map toAsciiLowerChar) :
    calc_lower_hash s1 = calc_lower_hash s2 := by
  rw [calc_lower_hash_bytes, calc_lower_hash_bytes, h]

theorem stripPathPre_append (p q : PathBuf) : stripPathPre p (p ++ q) = some q := by
  induction p with
  | nil => rfl
  | cons a p ih => simp [stripPathPre, ih]

/-- The CrtLibs/Ucrt filter split into its two conditions. -/
def debugSuffixedLib (fname : String) : Bool :=
  match stripSuffixOpt fname ".lib" with
  | some stripped =>
    strEndsWith stripped "d" || strEndsWith stripped "d_netcore" ||
    (match stripTrailingDigit stripped with
     | some s => strEndsWith s "d"
     | none => false)
  | none => false

theorem skipFile_eq (s l : Bool) (fname : String) :
    skipFile s l fname = ((!s && strEndsWith fname ".pdb") || (!l && debugSuffixedLib fname)) := rfl

theorem runDedup_cons (reg : List (Nat × PathBuf)) (e : String × PathBuf)
    (evs : List (String × PathBuf)) :
    runDedup reg (e :: evs) =
      ((e, (tryInsert reg (keyOf e) e.2).2) :: (runDedup (tryInsert reg (keyOf e) e.2).1 evs).1,
       (runDedup (tryInsert reg (keyOf e) e.2).1 evs).2) := by
  simp only [runDedup]

theorem runDedup_length (evs : List (String × PathBuf)) (reg : List (Nat × PathBuf)) :
    (runDedup reg evs).1.length = evs.length := by
  induction evs generalizing reg with
  | nil => rfl
  | cons e evs ih => rw [runDedup_cons]; simp [ih]

theorem containsKey_cons (k1 k : Nat) (p : PathBuf) (reg : List (Nat × PathBuf)) :
    containsKey ((k1, p) :: reg) k = (k1 == k || containsKey reg k) := by
  simp [containsKey]

theorem countWrites_cons (e : String × PathBuf) (w : Bool)
    (flags : List ((String × PathBuf) × Bool)) (k : Nat) :
    countWrites ((e, w) :: flags) k =
      (if keyOf e == k && w then 1 else 0) + countWrites flags k := by
  simp only [countWrites, List.filter_cons]
  split <;> simp [Nat.add_comm]

theorem countWrites_zero_of_contains (evs : List (String × PathBuf))
    (reg : List (Nat × PathBuf)) (k : Nat) (h : containsKey reg k = true) :
    countWrites (runDedup reg evs).1 k = 0 := by
  induction evs generalizing reg with
  | nil => rfl
  | cons e evs ih =>
    rw [runDedup_cons]
    cases hc : containsKey reg (keyOf e) with
    | true =>
      have htr : tryInsert reg (keyOf e) e.2 = (reg, false) := by simp [tryInsert, hc]
      rw [htr, countWrites_cons]
      simp [ih reg h]
    | false =>
      have hek : (keyOf e == k) = false := by
        simp only [beq_eq_false_iff_ne, ne_eq]
        intro hkk
        rw [hkk, h] at hc
        exact absurd hc (by simp)
      have htr : tryInsert reg (keyOf e) e.2 = ((keyOf e, e.2) :: reg, true) := by
        simp [tryInsert, hc]
      rw [htr, countWrites_cons, hek]
      have h2 : containsKey ((keyOf e, e.2) :: reg) k = true := by
        rw [containsKey_cons, h]
        simp
      simp [ih _ h2]

theorem countWrites_of_absent (evs : List (String × PathBuf))
    (reg : List (Nat × PathBuf)) (k : Nat) (h : containsKey reg k = false) :
    countWrites (runDedup reg evs).1 k =
      (if (evs.any fun e => keyOf e == k) then 1 else 0) := by
  induction evs generalizing reg with
  | nil => simp [runDedup, countWrites]
  | cons e evs ih =>
    rw [runDedup_cons]
    cases hek : keyOf e == k with
    | true =>
      have hkk : keyOf e = k := eq_of_beq hek
      have htr : tryInsert reg (keyOf e) e.2 = ((keyOf e, e.2) :: reg, true) := by
        rw [hkk] at *
        simp [tryInsert, h]
      rw [htr, countWrites_cons, hek]
      have h2 : containsKey ((keyOf e, e.2) :: reg) k = true := by
        rw [containsKey_cons, hek]
        rfl
      rw [countWrites_zero_of_contains evs _ k h2]
      simp [List.any_cons, hek]
    | false =>
      cases hc : containsKey reg (keyOf e) with
      | true =>
        have htr : tryInsert reg (keyOf e) e.2 = (reg, false) := by simp [tryInsert, hc]
        rw [htr, countWrites_cons, hek]
        rw [ih reg h]
        simp only [List.any_cons, hek, Bool.false_or, Bool.false_and, if_false]
        simp
      | false =>
        have htr : tryInsert reg (keyOf e) e.2 = ((keyOf e, e.2) :: reg, true) := by
          simp [tryInsert, hc]
        rw [htr, countWrites_cons, hek]
        have h2 : containsKey ((keyOf e, e.2) :: reg) k = false := by
          rw [containsKey_cons, hek, h]
          rfl
        rw [ih _ h2]
        simp only [List.any_cons, hek, Bool.false_or, Bool.false_and, if_false]
        simp

theorem runDedup_append (reg : List (Nat × PathBuf)) (l1 l2 : List (String × PathBuf)) :
    runDedup reg (l1 ++ l2) =
      ((runDedup reg l1).1 ++ (runDedup (runDedup reg l1).2 l2).1,
       (runDedup (runDedup reg l1).2 l2).2) := by
  induction l1 generalizing reg with
  | nil => simp [runDedup]
  | cons e l1 ih =>
    rw [List.cons_append, runDedup_cons, runDedup_cons, ih]
    simp

theorem runDedup_snd_contains (evs : List (String × PathBuf))
    (reg : List (Nat × PathBuf)) (k : Nat) :
    containsKey (runDedup reg evs).2 k =
      (containsKey reg k || evs.any fun e => keyOf e == k) := by
  induction evs generalizing reg with
  | nil => simp [runDedup]
  | cons e evs ih =>
    rw [runDedup_cons]
    cases hc : containsKey reg (keyOf e) with
    | true =>
      have htr : tryInsert reg (keyOf e) e.2 = (reg, false) := by simp [tryInsert, hc]
      rw [htr, ih reg]
      cases hek : keyOf e == k with
      | true =>
        have hkk : keyOf e = k := eq_of_beq hek
        rw [hkk] at hc
        rw [hc]
        simp [List.any_cons, hek]
      | false => simp [List.any_cons, hek]
    | false =>
      have htr : tryInsert reg (keyOf e) e.2 = ((keyOf e, e.2) :: reg, true) := by
        simp [tryInsert, hc]
      rw [htr, ih, containsKey_cons]
      cases hek : keyOf e == k <;> cases hck : containsKey reg k <;>
        simp [List.any_cons, hek, hck]

theorem ftWeight_eq (t : FileTree) : ftWeight t = 1 + ftWeightDirs t.dirs := by
  cases t
  rfl

theorem ftWeight_pos (t : FileTree) : 0 < ftWeight t := by
  rw [ftWeight_eq]
  omega

theorem totalBytes_eq (t : FileTree) :
    t.totalBytes = (t.files.map Prod.snd).sum + totalBytesDirs t.dirs := by
  cases t
  rfl

theorem stackWeight_append (l1 l2 : List DirFrame) :
    stackWeight (l1 ++ l2) = stackWeight l1 + stackWeight l2 := by
  induction l1 with
  | nil => simp [stackWeight]
  | cons f l ih => simp [stackWeight, ih]; omega

theorem stackWeight_reverse (l : List DirFrame) : stackWeight l.reverse = stackWeight l := by
  induction l with
  | nil => rfl
  | cons f l ih => simp [stackWeight, List.reverse_cons, stackWeight_append, ih]; omega

theorem stackWeight_mapDirs (src tar : PathBuf) (dirs : List (String × FileTree)) :
    stackWeight (dirs.map fun d => DirFrame.mk (pjoin src d.1) (pjoin tar d.1) d.2) =
      ftWeightDirs dirs := by
  induction dirs with
  | nil => rfl
  | cons d ds ih =>
    obtain ⟨n, t⟩ := d
    simp [stackWeight, ftWeightDirs, ih]

theorem stackBytes_append (l1 l2 : List DirFrame) :
    stackBytes (l1 ++ l2) = stackBytes l1 + stackBytes l2 := by
  induction l1 with
  | nil => simp [stackBytes]
  | cons f l ih => simp [stackBytes, ih]; omega

theorem stackBytes_reverse (l : List DirFrame) : stackBytes l.reverse = stackBytes l := by
  induction l with
  | nil => rfl
  | cons f l ih => simp [stackBytes, List.reverse_cons, stackBytes_append, ih]; omega

theorem stackBytes_mapDirs (src tar : PathBuf) (dirs : List (String × FileTree)) :
    stackBytes (dirs.map fun d => DirFrame.mk (pjoin src d.1) (pjoin tar d.1) d.2) =
      totalBytesDirs dirs := by
  induction dirs with
  | nil => rfl
  | cons d ds ih =>
    obtain ⟨n, t⟩ := d
    simp [stackBytes, totalBytesDirs, ih]

theorem transferDest_trans (c : Bool) (sp tf p : PathBuf)
    (h : transferDest (if c then FsOp.copyFile sp tf else FsOp.renameFile sp tf) = some p) :
    p = tf := by
  cases c <;> simp [transferDest] at h <;> exact h.symm

/-- Full characterization of processFile when every filesystem operation
succeeds: no error, progress advanced by the file size for every file
(including filtered and dedup-skipped ones), progress length untouched,
and every appended transfer lands at the file's destination in tar. -/
theorem processFile_true (config : SplatConfig) (kind : PayloadKind) (src tar : PathBuf)
    (st : EngineState) (fname : String) (size : Nat) :
    (processFile config (fun _ => true) kind src tar st fname size).2 = none ∧
    (processFile config (fun _ => true) kind src tar st fname size).1.progress =
      st.progress + size ∧
    (processFile config (fun _ => true) kind src tar st fname size).1.progressLen =
      st.progressLen ∧
    ∃ ops, (processFile config (fun _ => true) kind src tar st fname size).1.trace =
      st.trace ++ ops ∧
      ∀ op ∈ ops, ∀ p, transferDest op = some p → p = pjoin tar fname := by
  by_cases hsk : (kind = PayloadKind.CrtLibs ∨ kind = PayloadKind.Ucrt) ∧
      skipFile config.include_debug_symbols config.include_debug_libs fname = true
  · refine ⟨?_, ?_, ?_, [], ?_, by simp⟩ <;> simp [processFile, hsk]
  · cases kind with
    | SdkHeaders =>
      cases hck : containsKey st.registry (calc_lower_hash fname) with
      | true =>
        refine ⟨?_, ?_, ?_, [], ?_, by simp⟩ <;>
          simp [processFile, tryInsert, hck, attemptOp]
      | false =>
        refine ⟨?_, ?_, ?_,
          [if config.copy then FsOp.copyFile (pjoin src fname) (pjoin tar fname)
           else FsOp.renameFile (pjoin src fname) (pjoin tar fname)], ?_, ?_⟩ <;>
          first
          | (intro op hop p hp
             simp at hop
             subst hop
             exact transferDest_trans config.copy _ _ _ hp)
          | simp [processFile, tryInsert, hck, attemptOp]
    | CrtHeaders =>
      refine ⟨?_, ?_, ?_,
        [if config.copy then FsOp.copyFile (pjoin src fname) (pjoin tar fname)
         else FsOp.renameFile (pjoin src fname) (pjoin tar fname)], ?_, ?_⟩ <;>
        first
        | (intro op hop p hp
           simp at hop
           subst hop
           exact transferDest_trans config.copy _ _ _ hp)
        | simp [processFile, attemptOp]
    | Ucrt =>
      have hskf : skipFile config.include_debug_symbols config.include_debug_libs fname = false := by
        cases h : skipFile config.include_debug_symbols config.include_debug_libs fname
        · rfl
        · exact absurd ⟨Or.inr rfl, h⟩ hsk
      refine ⟨?_, ?_, ?_,
        [if config.copy then FsOp.copyFile (pjoin src fname) (pjoin tar fname)
         else FsOp.renameFile (pjoin src fname) (pjoin tar fname)], ?_, ?_⟩ <;>
        first
        | (intro op hop p hp
           simp at hop
           subst hop
           exact transferDest_trans config.copy _ _ _ hp)
        | simp [processFile, attemptOp, hskf]
    | CrtLibs =>
      have hskf : skipFile config.include_debug_symbols config.include_debug_libs fname = false := by
        cases h : skipFile config.include_debug_symbols config.include_debug_libs fname
        · rfl
        · exact absurd ⟨Or.inl rfl, h⟩ hsk
      cases hal : angryLib fname with
      | none =>
        refine ⟨?_, ?_, ?_,
          [if config.copy then FsOp.copyFile (pjoin src fname) (pjoin tar fname)
           else FsOp.renameFile (pjoin src fname) (pjoin tar fname)], ?_, ?_⟩ <;>
          first
          | (intro op hop p hp
             simp at hop
             subst hop
             exact transferDest_trans config.copy _ _ _ hp)
          | simp [processFile, attemptOp, hskf, hal]
      | some angry =>
        refine ⟨?_, ?_, ?_,
          [if config.copy then FsOp.copyFile (pjoin src fname) (pjoin tar fname)
           else FsOp.renameFile (pjoin src fname) (pjoin tar fname),
           FsOp.symlinkFile fname (pjoin (ppop (pjoin tar fname)) angry)], ?_, ?_⟩ <;>
          first
          | (intro op hop p hp
             rcases List.mem_cons.mp hop with h1 | h1
             · subst h1
               exact transferDest_trans config.copy _ _ _ hp
             · simp at h1
               subst h1
               simp [transferDest] at hp)
          | simp [processFile, attemptOp, hskf, hal]
    | SdkLibs =>
      cases hup : hasAsciiUppercase fname with
      | false =>
        refine ⟨?_, ?_, ?_,
          [if config.copy then FsOp.copyFile (pjoin src fname) (pjoin tar fname)
           else FsOp.renameFile (pjoin src fname) (pjoin tar fname)], ?_, ?_⟩ <;>
          first
          | (intro op hop p hp
             simp at hop
             subst hop
             exact transferDest_trans config.copy _ _ _ hp)
          | simp [processFile, attemptOp, hup]
      | true =>
        refine ⟨?_, ?_, ?_,
          [if config.copy then FsOp.copyFile (pjoin src fname) (pjoin tar fname)
           else FsOp.renameFile (pjoin src fname) (pjoin tar fname),
           FsOp.symlinkFile fname (pjoin (ppop (pjoin tar fname)) (toAsciiLowerStr fname))],
          ?_, ?_⟩ <;>
          first
          | (intro op hop p hp
             rcases List.mem_cons.mp hop with h1 | h1
             · subst h1
               exact transferDest_trans config.copy _ _ _ hp
             · simp at h1
               subst h1
               simp [transferDest] at hp)
          | simp [processFile, attemptOp, hup]
    | SdkStoreLibs =>
      cases hup : hasAsciiUppercase fname with
      | false =>
        refine ⟨?_, ?_, ?_,
          [if config.copy then FsOp.copyFile (pjoin src fname) (pjoin tar fname)
           else FsOp.renameFile (pjoin src fname) (pjoin tar fname)], ?_, ?_⟩ <;>
          first
          | (intro op hop p hp
             simp at hop
             subst hop
             exact transferDest_trans config.copy _ _ _ hp)
          | simp [processFile, attemptOp, hup]
      | true =>
        refine ⟨?_, ?_, ?_,
          [if config.copy then FsOp.copyFile (pjoin src fname) (pjoin tar fname)
           else FsOp.renameFile (pjoin src fname) (pjoin tar fname),
           FsOp.symlinkFile fname (pjoin (ppop (pjoin tar fname)) (toAsciiLowerStr fname))],
          ?_, ?_⟩ <;>
          first
          | (intro op hop p hp
             rcases List.mem_cons.mp hop with h1 | h1
             · subst h1
               exact transferDest_trans config.copy _ _ _ hp
             · simp at h1
               subst h1
               simp [transferDest] at hp)
          | simp [processFile, attemptOp, hup]

/-- processFiles under an all-success oracle: no error, progress
advanced by the byte sum of every file entry, and transfers land only
directly inside tar. -/
theorem attemptOp_true (st : EngineState) (op : FsOp) (m : String) :
    attemptOp (fun _ => true) st op m = ({ st with trace := st.trace ++ [op] }, none) := rfl

/-- processFiles under an all-success oracle: no error, progress
advanced by the byte sum of every file entry, and transfers land only
directly inside tar. -/
theorem processFiles_true (config : SplatConfig) (kind : PayloadKind) (src tar : PathBuf)
    (files : List (String × Nat)) (st : EngineState) :
    (processFiles config (fun _ => true) kind src tar st files).2 = none ∧
    (processFiles config (fun _ => true) kind src tar st files).1.progress =
      st.progress + (files.map Prod.snd).sum ∧
    (processFiles config (fun _ => true) kind src tar st files).1.progressLen =
      st.progressLen ∧
    ∃ ops, (processFiles config (fun _ => true) kind src tar st files).1.trace =
      st.trace ++ ops ∧
      ∀ op ∈ ops, ∀ p, transferDest op = some p → ∃ f, p = pjoin tar f := by
  induction files generalizing st with
  | nil => exact ⟨rfl, by simp [processFiles], rfl, [], by simp [processFiles], by simp⟩
  | cons fe rest ih =>
    obtain ⟨fn, sz⟩ := fe
    obtain ⟨h2, hpr, hpl, ops1, htr, hprop⟩ := processFile_true config kind src tar st fn sz
    rcases hr : processFile config (fun _ => true) kind src tar st fn sz with ⟨st2, e2⟩
    rw [hr] at h2 hpr hpl htr
    simp only at h2 hpr hpl htr
    subst h2
    obtain ⟨ih2, ihpr, ihpl, ops2, ihtr, ihprop⟩ := ih st2
    refine ⟨?_, ?_, ?_, ops1 ++ ops2, ?_, ?_⟩
    · simp only [processFiles]
      rw [hr]
      exact ih2
    · simp only [processFiles]
      rw [hr]
      dsimp only
      rw [ihpr, hpr]
      simp [Nat.add_assoc]
    · simp only [processFiles]
      rw [hr]
      dsimp only
      rw [ihpl, hpl]
    · simp only [processFiles]
      rw [hr]
      dsimp only
      rw [ihtr, htr, List.append_assoc]
    · intro op hop p hp
      rcases List.mem_append.mp hop with h1 | h1
      · exact ⟨fn, hprop op h1 p hp⟩
      · exact ihprop op h1 p hp

/-- The fueled worklist under an all-success oracle, with sufficient
fuel: no error, progress advanced by the total bytes of every subtree on
the stack (the pruning branch accounts the skipped bytes), progress
length untouched. -/
theorem processStackF_true (config : SplatConfig) (kind : PayloadKind)
    (variant : Option Variant) (variants : Nat) :
    ∀ (fuel : Nat) (stack : List DirFrame) (st : EngineState),
    stackWeight stack ≤ fuel →
    (processStackF config (fun _ => true) kind variant variants fuel st stack).2 = none ∧
    (processStackF config (fun _ => true) kind variant variants fuel st stack).1.progress =
      st.progress + stackBytes stack ∧
    (processStackF config (fun _ => true) kind variant variants fuel st stack).1.progressLen =
      st.progressLen := by
  intro fuel
  induction fuel with
  | zero =>
    intro stack st h
    cases stack with
    | nil => exact ⟨rfl, by simp [processStackF, stackBytes], rfl⟩
    | cons f rest =>
      have := ftWeight_pos f.tree
      simp [stackWeight] at h
      omega
  | succ n ih =>
    intro stack st h
    cases stack with
    | nil => exact ⟨rfl, by simp [processStackF, stackBytes], rfl⟩
    | cons frame rest =>
      have hw : stackWeight rest ≤ n := by
        have := ftWeight_pos frame.tree
        simp [stackWeight] at h
        omega
      obtain ⟨h2, hpr, hpl, _, _, _⟩ :=
        processFiles_true config kind frame.src frame.tar frame.tree.files
          { st with trace := st.trace ++ [FsOp.createDirAll frame.tar] }
      rcases hfr : processFiles config (fun _ => true) kind frame.src frame.tar
          { st with trace := st.trace ++ [FsOp.createDirAll frame.tar] }
          frame.tree.files with ⟨st2, e2⟩
      rw [hfr] at h2 hpr hpl
      simp only at h2 hpr hpl
      subst h2
      by_cases hprune : kind = PayloadKind.CrtLibs ∧ variant = some Variant.Store ∧
          variants &&& Variant.Store.asU32 = 0
      · obtain ⟨ih2, ihpr, ihpl⟩ := ih rest
          { st2 with logs := st2.logs ++ ["skipping CRT subdirs"],
                     progress := st2.progress + totalBytesDirs frame.tree.dirs } hw
        refine ⟨?_, ?_, ?_⟩ <;>
          (simp only [processStackF, attemptOp_true]; rw [hfr]; dsimp only;
           rw [if_pos hprune])
        · exact ih2
        · rw [ihpr]
          try dsimp only
          rw [hpr]
          try dsimp only
          rw [stackBytes, totalBytes_eq]
          omega
        · rw [ihpl]
          try dsimp only
          rw [hpl]
      · have hw2 : stackWeight ((frame.tree.dirs.map fun d =>
            DirFrame.mk (pjoin frame.src d.1) (pjoin frame.tar d.1) d.2).reverse ++ rest) ≤ n := by
          rw [stackWeight_append, stackWeight_reverse, stackWeight_mapDirs]
          have := ftWeight_eq frame.tree
          simp [stackWeight] at h
          omega
        obtain ⟨ih2, ihpr, ihpl⟩ := ih ((frame.tree.dirs.map fun d =>
            DirFrame.mk (pjoin frame.src d.1) (pjoin frame.tar d.1) d.2).reverse ++ rest) st2 hw2
        refine ⟨?_, ?_, ?_⟩ <;>
          (simp only [processStackF, attemptOp_true]; rw [hfr]; dsimp only;
           rw [if_neg hprune])
        · exact ih2
        · rw [ihpr, hpr]
          try dsimp only
          rw [stackBytes_append, stackBytes_reverse, stackBytes_mapDirs]
          rw [stackBytes, totalBytes_eq]
          omega
        · rw [ihpl, hpl]

/-- On a CrtLibs Store mapping with the Store bit unset, every worklist
frame prunes: the only transfers in the produced trace land directly in
the tar directory of a frame already on the stack — nothing beneath the
pruned subdirectories is written. -/
theorem processStackF_pruned_trace (config : SplatConfig) (variants : Nat)
    (hst : variants &&& Variant.Store.asU32 = 0) :
    ∀ (fuel : Nat) (stack : List DirFrame) (st : EngineState),
    stackWeight stack ≤ fuel →
    ∃ ops, (processStackF config (fun _ => true) PayloadKind.CrtLibs (some Variant.Store)
        variants fuel st stack).1.trace = st.trace ++ ops ∧
      ∀ op ∈ ops, ∀ p, transferDest op = some p → ∃ fr f, fr ∈ stack ∧ p = pjoin fr.tar f := by
  intro fuel
  induction fuel with
  | zero =>
    intro stack st h
    cases stack with
    | nil => exact ⟨[], by simp [processStackF], by simp⟩
    | cons f rest =>
      have := ftWeight_pos f.tree
      simp [stackWeight] at h
      omega
  | succ n ih =>
    intro stack st h
    cases stack with
    | nil => exact ⟨[], by simp [processStackF], by simp⟩
    | cons frame rest =>
      have hw : stackWeight rest ≤ n := by
        have := ftWeight_pos frame.tree
        simp [stackWeight] at h
        omega
      obtain ⟨h2, _, _, ops1, htr1, hprop1⟩ :=
        processFiles_true config PayloadKind.CrtLibs frame.src frame.tar frame.tree.files
          { st with trace := st.trace ++ [FsOp.createDirAll frame.tar] }
      rcases hfr : processFiles config (fun _ => true) PayloadKind.CrtLibs frame.src frame.tar
          { st with trace := st.trace ++ [FsOp.createDirAll frame.tar] }
          frame.tree.files with ⟨st2, e2⟩
      rw [hfr] at h2 htr1
      simp only at h2 htr1
      subst h2
      have hpruneT : True ∧ True ∧ variants &&& Variant.Store.asU32 = 0 :=
        ⟨trivial, trivial, hst⟩
      obtain ⟨ops2, ihtr, ihprop⟩ := ih rest
        { st2 with logs := st2.logs ++ ["skipping CRT subdirs"],
                   progress := st2.progress + totalBytesDirs frame.tree.dirs } hw
      refine ⟨FsOp.createDirAll frame.tar :: (ops1 ++ ops2), ?_, ?_⟩
      · simp only [processStackF, attemptOp_true]
        rw [hfr]
        dsimp only
        rw [if_pos hpruneT, ihtr]
        try dsimp only
        rw [htr1]
        simp [List.append_assoc]
      · intro op hop p hp
        rcases List.mem_cons.mp hop with h1 | h1
        · subst h1
          simp [transferDest] at hp
        · rcases List.mem_append.mp h1 with h3 | h3
          · obtain ⟨f, hf⟩ := hprop1 op h3 p hp
            exact ⟨frame, f, List.mem_cons_self _ _, hf⟩
          · obtain ⟨fr, f, hfr2, hf⟩ := ihprop op h3 p hp
            exact ⟨fr, f, List.mem_cons_of_mem _ hfr2, hf⟩

theorem processMapping_true (config : SplatConfig) (variants : Nat) (st : EngineState)
    (m : Mapping) :
    (processMapping config (fun _ => true) variants st m).2 = none ∧
    (processMapping config (fun _ => true) variants st m).1.progress =
      st.progress + m.tree.totalBytes ∧
    (processMapping config (fun _ => true) variants st m).1.progressLen = st.progressLen := by
  obtain ⟨h2, hpr, hpl⟩ := processStackF_true config m.kind m.variant variants
    (stackWeight [⟨m.src, m.target, m.tree⟩]) [⟨m.src, m.target, m.tree⟩] st (Nat.le_refl _)
  exact ⟨h2, by simpa [stackBytes] using hpr, hpl⟩

theorem processMappings_true (config : SplatConfig) (variants : Nat) (maps : List Mapping)
    (st : EngineState) :
    (processMappings config (fun _ => true) variants st maps).1.progress =
      st.progress + (maps.map fun m => m.tree.totalBytes).sum ∧
    (processMappings config (fun _ => true) variants st maps).1.progressLen =
      st.progressLen := by
  induction maps generalizing st with
  | nil => simp [processMappings]
  | cons m maps ih =>
    obtain ⟨_, hpr, hpl⟩ := processMapping_true config variants st m
    rcases hm : processMapping config (fun _ => true) variants st m with ⟨st2, r⟩
    rw [hm] at hpr hpl
    simp only at hpr hpl
    obtain ⟨ihpr, ihpl⟩ := ih st2
    rcases hrest : processMappings config (fun _ => true) variants st2 maps with ⟨st3, rs⟩
    rw [hrest] at ihpr ihpl
    simp only at ihpr ihpl
    constructor
    · simp only [processMappings]
      rw [hm, hrest]
      dsimp only
      rw [ihpr, hpr]
      simp [Nat.add_assoc]
    · simp only [processMappings]
      rw [hm, hrest]
      dsimp only
      rw [ihpl, hpl]

theorem scanFiles_err_of_unreadable (fsRead : PathBuf → Option (List Nat)) :
    ∀ (paths : List PathBuf) (incs : List String) (p : PathBuf),
    p ∈ paths → fsRead p = none → ∃ e, scanFiles fsRead incs paths = .error e := by
  intro paths
  induction paths with
  | nil =>
    intro incs p hp
    cases hp
  | cons q rest ih =>
    intro incs p hp hnone
    rcases List.mem_cons.mp hp with h1 | h1
    · subst h1
      exact ⟨"unable to read " ++ pathStr p, by simp [scanFiles, hnone]⟩
    · cases hq : fsRead q with
      | none => exact ⟨"unable to read " ++ pathStr q, by simp [scanFiles, hq]⟩
      | some contents =>
        cases hac : addCaptures q incs (scanCaptures contents) with
        | error e => exact ⟨e, by simp [scanFiles, hq, hac]⟩
        | ok incs2 =>
          obtain ⟨e, he⟩ := ih incs2 p h1 hnone
          exact ⟨e, by simp [scanFiles, hq, hac, he]⟩

theorem plast_pjoin (p : PathBuf) (s : String) : plast (pjoin p s) = some s := by
  simp [plast, pjoin]

theorem addCaptures_err (p : PathBuf) :
    ∀ (caps : List (List Nat)) (incs : List String),
    (∃ cap ∈ caps, utf8ToStr cap = none) →
    addCaptures p incs caps =
      .error (pathStr p ++ " contained an include with non-utf8 characters") := by
  intro caps
  induction caps with
  | nil =>
    intro incs h
    obtain ⟨c, hc, _⟩ := h
    cases hc
  | cons cap rest ih =>
    intro incs h
    cases hu : utf8ToStr cap with
    | none => simp [addCaptures, hu]
    | some name =>
      obtain ⟨c, hc, hcn⟩ := h
      rcases List.mem_cons.mp hc with h1 | h1
      · subst h1
        rw [hu] at hcn
        cases hcn
      · simp only [addCaptures, hu]
        exact ih _ ⟨c, h1, hcn⟩

theorem addCaptures_ok (p : PathBuf) :
    ∀ (caps : List (List Nat)) (incs : List String),
    (∀ cap ∈ caps, utf8ToStr cap ≠ none) →
    ∃ incs2, addCaptures p incs caps = .ok incs2 := by
  intro caps
  induction caps with
  | nil =>
    intro incs _
    exact ⟨incs, rfl⟩
  | cons cap rest ih =>
    intro incs h
    cases hu : utf8ToStr cap with
    | none => exact absurd hu (h cap (List.mem_cons_self _ _))
    | some name =>
      simp only [addCaptures, hu]
      exact ih _ fun c hc => h c (List.mem_cons_of_mem _ hc)

theorem scanFiles_err_enc (fsRead : PathBuf → Option (List Nat)) :
    ∀ (paths : List PathBuf) (incs : List String),
    (∀ p ∈ paths, ∃ c, fsRead p = some c) →
    (∃ p ∈ paths, ∃ c, fsRead p = some c ∧ ∃ cap ∈ scanCaptures c, utf8ToStr cap = none) →
    ∃ q, scanFiles fsRead incs paths =
      .error (pathStr q ++ " contained an include with non-utf8 characters") := by
  intro paths
  induction paths with
  | nil =>
    intro incs _ hex
    obtain ⟨p, hp, _⟩ := hex
    cases hp
  | cons q rest ih =>
    intro incs hread hex
    obtain ⟨cq, hcq⟩ := hread q (List.mem_cons_self _ _)
    by_cases hbadq : ∃ cap ∈ scanCaptures cq, utf8ToStr cap = none
    · exact ⟨q, by simp [scanFiles, hcq, addCaptures_err q _ _ hbadq]⟩
    · obtain ⟨incs2, hok⟩ := addCaptures_ok q (scanCaptures cq) incs
        (by
          intro cap hc hnone
          exact hbadq ⟨cap, hc, hnone⟩)
      obtain ⟨p, hp, c, hc, hbad⟩ := hex
      rcases List.mem_cons.mp hp with h1 | h1
      · subst h1
        rw [hcq] at hc
        cases hc
        exact absurd hbad hbadq
      · obtain ⟨q2, hq2⟩ := ih incs2 (fun p2 hp2 => hread p2 (List.mem_cons_of_mem _ hp2))
          ⟨p, h1, c, hc, hbad⟩
        exact ⟨q2, by simp [scanFiles, hcq, hok, hq2]⟩

theorem scanFiles_ok (fsRead : PathBuf → Option (List Nat)) :
    ∀ (paths : List PathBuf) (incs : List String),
    (∀ p ∈ paths, ∃ c, fsRead p = some c) →
    (∀ p c, p ∈ paths → fsRead p = some c → ∀ cap ∈ scanCaptures c, utf8ToStr cap ≠ none) →
    ∃ incs2, scanFiles fsRead incs paths = .ok incs2 := by
  intro paths
  induction paths with
  | nil =>
    intro incs _ _
    exact ⟨incs, rfl⟩
  | cons q rest ih =>
    intro incs hread hgood
    obtain ⟨cq, hcq⟩ := hread q (List.mem_cons_self _ _)
    obtain ⟨incs2, hok⟩ := addCaptures_ok q (scanCaptures cq) incs
      (hgood q cq (List.mem_cons_self _ _) hcq)
    obtain ⟨incs3, hok3⟩ := ih incs2 (fun p2 hp2 => hread p2 (List.mem_cons_of_mem _ hp2))
      (fun p2 c2 hp2 => hgood p2 c2 (List.mem_cons_of_mem _ hp2))
    exact ⟨incs3, by simp [scanFiles, hcq, hok, hok3]⟩

theorem resolveIncludes_true_ok (files : List (Nat × PathBuf)) :
    ∀ (names : List String) (acc : List FsOp × List String),
    (resolveIncludes (fun _ => true) files acc names).2 = none := by
  intro names
  induction names with
  | nil =>
    intro acc
    rfl
  | cons inc rest ih =>
    intro acc
    cases hf : assocFind files (calc_lower_hash inc) with
    | none => simp only [resolveIncludes, hf]; exact ih _
    | some disk =>
      cases hl : plast disk with
      | none => simp only [resolveIncludes, hf, hl]; exact ih _
      | some fname =>
        by_cases hne : fname ≠ inc
        · simp only [resolveIncludes, hf, hl, if_pos hne]
          exact ih _
        · simp only [resolveIncludes, hf, hl, if_neg hne]
          exact ih _

theorem resolveIncludes_logs_mono (files : List (Nat × PathBuf)) :
    ∀ (names : List String) (acc : List FsOp × List String) (x : String), x ∈ acc.2 →
    x ∈ (resolveIncludes (fun _ => true) files acc names).1.2 := by
  intro names
  induction names with
  | nil =>
    intro acc x hx
    exact hx
  | cons inc rest ih =>
    intro acc x hx
    cases hf : assocFind files (calc_lower_hash inc) with
    | none =>
      simp only [resolveIncludes, hf]
      exact ih _ x (by simp [hx])
    | some disk =>
      cases hl : plast disk with
      | none => simp only [resolveIncludes, hf, hl]; exact ih _ x hx
      | some fname =>
        by_cases hne : fname ≠ inc
        · simp only [resolveIncludes, hf, hl, if_pos hne]
          exact ih _ x hx
        · simp only [resolveIncludes, hf, hl, if_neg hne]
          exact ih _ x hx

theorem resolveIncludes_miss_logged (files : List (Nat × PathBuf)) :
    ∀ (names : List String) (acc : List FsOp × List String) (n : String), n ∈ names →
    assocFind files (calc_lower_hash n) = none →
    ("SDK include for " ++ n ++ " was not found in the SDK headers") ∈
      (resolveIncludes (fun _ => true) files acc names).1.2 := by
  intro names
  induction names with
  | nil =>
    intro acc n hn
    cases hn
  | cons inc rest ih =>
    intro acc n hn hmiss
    rcases List.mem_cons.mp hn with h1 | h1
    · subst h1
      simp only [resolveIncludes, hmiss]
      exact resolveIncludes_logs_mono files rest _ _ (by simp)
    · cases hf : assocFind files (calc_lower_hash inc) with
      | none =>
        simp only [resolveIncludes, hf]
        exact ih _ n h1 hmiss
      | some disk =>
        cases hl : plast disk with
        | none => simp only [resolveIncludes, hf, hl]; exact ih _ n h1 hmiss
        | some fname =>
          by_cases hne : fname ≠ inc
          · simp only [resolveIncludes, hf, hl, if_pos hne]
            exact ih _ n h1 hmiss
          · simp only [resolveIncludes, hf, hl, if_neg hne]
            exact ih _ n h1 hmiss

theorem resolveIncludes_ops_found (files : List (Nat × PathBuf)) :
    ∀ (names : List String) (acc : List FsOp × List String),
    (∀ op ∈ acc.1, ∀ orig link, op = FsOp.symlinkFile orig link →
      ∃ n2, plast link = some n2 ∧ assocFind files (calc_lower_hash n2) ≠ none) →
    ∀ op ∈ (resolveIncludes (fun _ => true) files acc names).1.1,
    ∀ orig link, op = FsOp.symlinkFile orig link →
      ∃ n2, plast link = some n2 ∧ assocFind files (calc_lower_hash n2) ≠ none := by
  intro names
  induction names with
  | nil =>
    intro acc hacc
    exact hacc
  | cons inc rest ih =>
    intro acc hacc
    cases hf : assocFind files (calc_lower_hash inc) with
    | none =>
      simp only [resolveIncludes, hf]
      exact ih _ hacc
    | some disk =>
      cases hl : plast disk with
      | none => simp only [resolveIncludes, hf, hl]; exact ih _ hacc
      | some fname =>
        by_cases hne : fname ≠ inc
        · simp only [resolveIncludes, hf, hl, if_pos hne]
          apply ih
          intro op hop orig link heq
          rcases List.mem_append.mp hop with h1 | h1
          · exact hacc op h1 orig link heq
          · simp at h1
            subst h1
            cases heq
            exact ⟨inc, plast_pjoin _ _, by rw [hf]; exact fun h => Option.noConfusion h⟩
        · simp only [resolveIncludes, hf, hl, if_neg hne]
          exact ih _ hacc

/-! ## Claim theorems -/

/-- C10: calc_lower_hash is invariant under ASCII case: two strings with
equal ASCII-lowercasings receive the same 64-bit key, and the key is the
XxHash64 of the lowercased characters truncated to their low bytes. -/
theorem c10_calc_lower_hash_case_invariant (s1 s2 : String)
    (h : s1.data.map toAsciiLowerChar = s2.data.map toAsciiLowerChar) :
    calc_lower_hash s1 = calc_lower_hash s2 ∧
    calc_lower_hash s1 = xxh64 0 ((s1.data.map toAsciiLowerChar).map fun c => c.toNat % 256) :=
  ⟨calc_lower_hash_congr s1 s2 h, calc_lower_hash_bytes s1⟩

/-- C10 witness: concrete filenames differing only in ASCII letter case. -/
theorem c10_witness :
    ("Ab.H".data.map toAsciiLowerChar = "aB.h".data.map toAsciiLowerChar) ∧
    calc_lower_hash "Ab.H" = calc_lower_hash "aB.h" :=
  ⟨by decide, (c10_calc_lower_hash_case_invariant "Ab.H" "aB.h" (by decide)).1⟩

/-- C3 counterexample: with include_debug_symbols set and
include_debug_libs unset, vcruntime140d.pdb is not skipped and is
physically copied (the claim's example says it needs both flags), and a
versioned name ending in d140 is not treated as debug-suffixed either. -/
theorem c3_counterexample :
    skipFile true false "vcruntime140d.pdb" = false ∧
    skipFile true false "msvcrtd140.lib" = false ∧
    (processFile ⟨false, true, false, false, ["o"], true⟩ (fun _ => true) PayloadKind.Ucrt
        ["s"] ["t"] ⟨[], 0, 0, [], []⟩ "vcruntime140d.pdb" 1).1.trace =
      [FsOp.copyFile ["s", "vcruntime140d.pdb"] ["t", "vcruntime140d.pdb"]] := by
  refine ⟨by decide, by decide, by decide⟩

/-- C3 amended: a CrtLibs/Ucrt file is placed iff (not a .pdb or
include-debug-symbols) and (not a debug-suffixed .lib name or
include-debug-libs), where debug-suffixed means the base name after
stripping .lib ends in d, in d_netcore, or in exactly one decimal digit
preceded by d (a name ending in d140 is not debug-suffixed); msvcrt.lib
is always copied, msvcrtd.lib iff include-debug-libs, and
vcruntime140d.pdb iff include-debug-symbols alone. -/
theorem c3_crtlibs_ucrt_filter (s l : Bool) (fname : String) :
    (skipFile s l fname = false ↔
      ((strEndsWith fname ".pdb" = false ∨ s = true) ∧
       (debugSuffixedLib fname = false ∨ l = true))) ∧
    skipFile s l "msvcrt.lib" = false ∧
    (skipFile s l "msvcrtd.lib" = false ↔ l = true) ∧
    (skipFile s l "vcruntime140d.pdb" = false ↔ s = true) := by
  refine ⟨?_, ?_, ?_, ?_⟩
  · rw [skipFile_eq]
    cases s <;> cases l <;>
      cases hp : strEndsWith fname ".pdb" <;> cases hd : debugSuffixedLib fname <;> simp [hp, hd]
  · cases s <;> cases l <;> decide
  · cases s <;> cases l <;> decide
  · cases s <;> cases l <;> decide

/-- C3 witness: the filter at concrete inputs. -/
theorem c3_witness :
    skipFile false true "msvcrtd.lib" = false ↔ (true : Bool) = true :=
  (c3_crtlibs_ucrt_filter false true "msvcrtd.lib").2.2.1

/-- C2 counterexample: an SdkLibs file Foo.Lib is physically copied to
its original mixed-case name, and the symlink is created at the
lowercased name pointing to the original name, not the other way round:
no transfer lands at foo.lib and no symlink is created at Foo.Lib. -/
theorem c2_counterexample :
    (processFile ⟨false, false, false, false, ["o"], true⟩ (fun _ => true) PayloadKind.SdkLibs
        ["s"] ["t"] ⟨[], 0, 0, [], []⟩ "Foo.Lib" 4).1.trace =
      [FsOp.copyFile ["s", "Foo.Lib"] ["t", "Foo.Lib"],
       FsOp.symlinkFile "Foo.Lib" ["t", "foo.lib"]] ∧
    (∀ op ∈ (processFile ⟨false, false, false, false, ["o"], true⟩ (fun _ => true)
        PayloadKind.SdkLibs ["s"] ["t"] ⟨[], 0, 0, [], []⟩ "Foo.Lib" 4).1.trace,
      transferDest op ≠ some ["t", "foo.lib"]) ∧
    (∀ op ∈ (processFile ⟨false, false, false, false, ["o"], true⟩ (fun _ => true)
        PayloadKind.SdkLibs ["s"] ["t"] ⟨[], 0, 0, [], []⟩ "Foo.Lib" 4).1.trace,
      linkDest op ≠ some ["t", "Foo.Lib"]) := by
  refine ⟨by decide, by decide, by decide⟩

/-- C4: the disable_symlinks configuration field is never consulted by
the placement or finalize code: with disable_symlinks set, an SdkLibs
lowercase-repair symlink, a CrtLibs angry-lib symlink and the finalize
GL symlink are all still created (finalize_splat takes no configuration
at all). -/
theorem c4_disable_symlinks_ignored :
    (⟨false, false, true, false, ["o"], true⟩ : SplatConfig).disable_symlinks = true ∧
    (processFile ⟨false, false, true, false, ["o"], true⟩ (fun _ => true) PayloadKind.SdkLibs
        ["s"] ["t"] ⟨[], 0, 0, [], []⟩ "Foo.Lib" 4).1.trace =
      [FsOp.copyFile ["s", "Foo.Lib"] ["t", "Foo.Lib"],
       FsOp.symlinkFile "Foo.Lib" ["t", "foo.lib"]] ∧
    (processFile ⟨false, false, true, false, ["o"], true⟩ (fun _ => true) PayloadKind.CrtLibs
        ["s"] ["t"] ⟨[], 0, 0, [], []⟩ "libcmt.lib" 4).1.trace =
      [FsOp.copyFile ["s", "libcmt.lib"] ["t", "libcmt.lib"],
       FsOp.symlinkFile "libcmt.lib" ["t", "LIBCMT.lib"]] ∧
    finalize_splat ⟨["o", "crt"], ["o", "sdk"], ["w", "u"]⟩ [] (fun _ => some [])
        (fun _ => true) =
      .ok ([FsOp.symlinkFile "gl" ["o", "sdk", "include", "um", "GL"]], []) := by
  refine ⟨rfl, by decide, by decide, by rfl⟩

/-- C1: in any serialized sequence of SdkHeaders dedup critical sections
(arbitrary interleaving of workers at the registry mutex, starting from
the empty registry of a run), at most one event per DedupKey decides to
write; exactly one writes when the key occurs at all; and the writer is
precisely the first event carrying that key, every later event with the
same key being skipped. -/
theorem c1_sdkheaders_first_writer_wins (evs : List (String × PathBuf)) (k : Nat) :
    countWrites (runDedup [] evs).1 k ≤ 1 ∧
    ((evs.any fun e => keyOf e == k) = true → countWrites (runDedup [] evs).1 k = 1) ∧
    (∀ l1 e l2, evs = l1 ++ e :: l2 → keyOf e = k → (∀ e2 ∈ l1, keyOf e2 ≠ k) →
      ∃ f1 f2, (runDedup [] evs).1 = f1 ++ (e, true) :: f2 ∧
        f1.length = l1.length ∧ countWrites f2 k = 0) ∧
    (∀ s1 s2 : String, s1.data.map toAsciiLowerChar = s2.data.map toAsciiLowerChar →
      calc_lower_hash s1 = calc_lower_hash s2) := by
  have habs : containsKey [] k = false := rfl
  refine ⟨?_, ?_, ?_, fun s1 s2 h => calc_lower_hash_congr s1 s2 h⟩
  · rw [countWrites_of_absent evs [] k habs]
    split <;> simp
  · intro hany
    rw [countWrites_of_absent evs [] k habs, if_pos hany]
  · intro l1 e l2 hevs hke hl1
    subst hevs
    subst hke
    have hany1 : (l1.any fun e2 => keyOf e2 == keyOf e) = false := by
      simp only [List.any_eq_false]
      intro x hx
      simpa using hl1 x hx
    have hR1 : containsKey (runDedup [] l1).2 (keyOf e) = false := by
      rw [runDedup_snd_contains]
      simp [hany1, containsKey]
    have htr : tryInsert (runDedup [] l1).2 (keyOf e) e.2 =
        ((keyOf e, e.2) :: (runDedup [] l1).2, true) := by
      simp [tryInsert, hR1]
    refine ⟨(runDedup [] l1).1,
      (runDedup (tryInsert (runDedup [] l1).2 (keyOf e) e.2).1 l2).1, ?_,
      runDedup_length l1 [], ?_⟩
    · rw [runDedup_append, runDedup_cons, htr]
    · rw [htr]
      apply countWrites_zero_of_contains
      rw [containsKey_cons]
      simp

/-- C1 witness: two header names equal up to ASCII case; the key occurs,
so exactly one write happens for it across the whole sequence. -/
theorem c1_witness :
    (([(("Windows.h" : String), (["s", "Windows.h"] : PathBuf)),
       ("WINDOWS.H", ["t", "WINDOWS.H"])].any
        fun e => keyOf e == calc_lower_hash "Windows.h") = true) ∧
    countWrites
      (runDedup [] [("Windows.h", ["s", "Windows.h"]), ("WINDOWS.H", ["t", "WINDOWS.H"])]).1
      (calc_lower_hash "Windows.h") = 1 :=
  ⟨by decide,
   (c1_sdkheaders_first_writer_wins
      [("Windows.h", ["s", "Windows.h"]), ("WINDOWS.H", ["t", "WINDOWS.H"])]
      (calc_lower_hash "Windows.h")).2.1 (by decide)⟩

/-- C6: under an all-success oracle, the progress length is set to the
summed byte count of all the resolved mappings' subtrees and the final
progress equals it; every visited file advances progress by its size,
including filtered and dedup-skipped files (processFile does so
unconditionally); and a CrtLibs Store mapping with the Store bit unset
still advances progress by its full subtree byte count while every
transfer it performs lands directly in the mapping's target directory,
never beneath a pruned subdirectory. -/
theorem c6_progress_accounting (config : SplatConfig) (roots : SplatRoots) (payload : Payload)
    (tree : FileTree) (arches variants : Nat) (st0 : EngineState) (maps : List Mapping)
    (hres : resolveMappings config roots payload tree arches variants = .ok maps) :
    (∃ out, splat config roots payload tree arches variants (fun _ => true) st0 = .ok out ∧
      out.state.progressLen = (maps.map fun m => m.tree.totalBytes).sum ∧
      out.state.progress = out.state.progressLen) ∧
    (∀ (kind : PayloadKind) (src tar : PathBuf) (st : EngineState) (fname : String) (size : Nat),
      (processFile config (fun _ => true) kind src tar st fname size).1.progress =
        st.progress + size) ∧
    (∀ (st : EngineState) (m : Mapping), m.kind = PayloadKind.CrtLibs →
      m.variant = some Variant.Store → variants &&& Variant.Store.asU32 = 0 →
      (processMapping config (fun _ => true) variants st m).1.progress =
        st.progress + m.tree.totalBytes ∧
      ∃ ops, (processMapping config (fun _ => true) variants st m).1.trace = st.trace ++ ops ∧
        ∀ op ∈ ops, ∀ p, transferDest op = some p → ∃ f, p = pjoin m.target f) := by
  have key : ∀ (st1 : EngineState),
      (processMappings config (fun _ => true) variants
        { st1 with progress := 0, progressLen := (maps.map fun m => m.tree.totalBytes).sum }
        maps).1.progress = (maps.map fun m => m.tree.totalBytes).sum ∧
      (processMappings config (fun _ => true) variants
        { st1 with progress := 0, progressLen := (maps.map fun m => m.tree.totalBytes).sum }
        maps).1.progressLen = (maps.map fun m => m.tree.totalBytes).sum := by
    intro st1
    obtain ⟨hpr, hpl⟩ := processMappings_true config variants maps
      { st1 with progress := 0, progressLen := (maps.map fun m => m.tree.totalBytes).sum }
    rw [hpr, hpl]
    exact ⟨by simp, rfl⟩
  refine ⟨?_, ?_, ?_⟩
  · cases hcopy : config.copy with
    | true =>
      simp only [splat, hcopy]
      rw [hres]
      dsimp only
      exact ⟨_, rfl, (key st0).2, ((key st0).1).trans ((key st0).2).symm⟩
    | false =>
      simp only [splat, hcopy]
      rw [hres]
      simp only [if_true, show ((fun (_ : FsOp) => true)
        (FsOp.removeFile (pjoin (pjoin roots.src payload.filename) ".unpack"))) = true from rfl]
      try dsimp only
      refine ⟨_, rfl, ?_, ?_⟩
      · exact (key _).2
      · exact ((key _).1).trans ((key _).2).symm
  · intro kind src tar st fname size
    exact (processFile_true config kind src tar st fname size).2.1
  · intro st m hk hv hbit
    refine ⟨(processMapping_true config variants st m).2.1, ?_⟩
    have hred : processMapping config (fun _ => true) variants st m =
        processStackF config (fun _ => true) PayloadKind.CrtLibs (some Variant.Store) variants
          (stackWeight [⟨m.src, m.target, m.tree⟩]) st [⟨m.src, m.target, m.tree⟩] := by
      rw [processMapping, processStack, hk, hv]
    obtain ⟨ops, htr, hprop⟩ := processStackF_pruned_trace config variants hbit
      (stackWeight [⟨m.src, m.target, m.tree⟩]) [⟨m.src, m.target, m.tree⟩] st (Nat.le_refl _)
    refine ⟨ops, ?_, ?_⟩
    · rw [hred]
      exact htr
    · intro op hop p hp
      obtain ⟨fr, f, hfr, hf⟩ := hprop op hop p hp
      have : fr = ⟨m.src, m.target, m.tree⟩ := by simpa using hfr
      subst this
      exact ⟨f, hf⟩

/-- C6 witness: a concrete CrtHeaders payload with one 5-byte file. -/
theorem c6_witness :
    ∃ out, splat ⟨false, false, false, false, ["o"], true⟩ ⟨["o", "crt"], ["o", "sdk"], ["w", "u"]⟩
        ⟨"f", PayloadKind.CrtHeaders, none, none⟩
        (FileTree.mk [] [("include", FileTree.mk [("a.h", 5)] [])]) 0 0
        (fun _ => true) ⟨[], 0, 0, [], []⟩ = .ok out ∧
      out.state.progressLen =
        (([⟨["w", "u", "f", "include"], ["o", "crt", "include"],
            FileTree.mk [("a.h", 5)] [], PayloadKind.CrtHeaders, none⟩] : List Mapping).map
          fun m => m.tree.totalBytes).sum ∧
      out.state.progress = out.state.progressLen :=
  (c6_progress_accounting ⟨false, false, false, false, ["o"], true⟩
    ⟨["o", "crt"], ["o", "sdk"], ["w", "u"]⟩ ⟨"f", PayloadKind.CrtHeaders, none, none⟩
    (FileTree.mk [] [("include", FileTree.mk [("a.h", 5)] [])]) 0 0 ⟨[], 0, 0, [], []⟩
    [⟨["w", "u", "f", "include"], ["o", "crt", "include"], FileTree.mk [("a.h", 5)] [],
      PayloadKind.CrtHeaders, none⟩] rfl).1

/-- C9: for an SdkHeaders file, the registry entry is inserted in the
critical section before the transfer is attempted; when the transfer
fails, the mapping aborts with the IO error, the trace records no
transfer, and the registry still maps the DedupKey to the destination
path; the finalize pass reads every registered path, so with that path
unreadable the pass fails on its read attempt. -/
theorem c9_registry_entry_survives_failed_transfer (config : SplatConfig) (fs : FsOracle)
    (src tar : PathBuf) (st : EngineState) (fname : String) (size : Nat)
    (habs : containsKey st.registry (calc_lower_hash fname) = false)
    (hfail : fs (if config.copy then FsOp.copyFile (pjoin src fname) (pjoin tar fname)
                 else FsOp.renameFile (pjoin src fname) (pjoin tar fname)) = false) :
    processFile config fs PayloadKind.SdkHeaders src tar st fname size =
      ({ st with progress := st.progress + size,
                 registry := (calc_lower_hash fname, pjoin tar fname) :: st.registry },
       some (if config.copy
             then "failed to copy " ++ pathStr (pjoin src fname) ++ " to " ++
               pathStr (pjoin tar fname)
             else "failed to move " ++ pathStr (pjoin src fname) ++ " to " ++
               pathStr (pjoin tar fname))) ∧
    (∀ (roots : SplatRoots) (files : List (Nat × PathBuf))
       (fsRead : PathBuf → Option (List Nat)) (fsl : FsOracle),
      (calc_lower_hash fname, pjoin tar fname) ∈ files →
      fsRead (pjoin tar fname) = none →
      ∃ e, finalize_splat roots files fsRead fsl = .error e) := by
  constructor
  · cases hc : config.copy <;> simp [hc] at hfail <;>
      simp [processFile, attemptOp, tryInsert, habs, hfail, hc]
  · intro roots files fsRead fsl hmem hnone
    obtain ⟨e, he⟩ := scanFiles_err_of_unreadable fsRead (files.map Prod.snd)
      (seedIncludes files) (pjoin tar fname) (List.mem_map_of_mem Prod.snd hmem) hnone
    exact ⟨e, by simp [finalize_splat, he]⟩

/-- C9 witness: a failed copy of A.h leaves the registry entry behind and
finalize then fails to read the never-written destination. -/
theorem c9_witness :
    processFile ⟨false, false, false, false, ["o"], true⟩
        (fun op => match op with | FsOp.copyFile _ _ => false | _ => true)
        PayloadKind.SdkHeaders ["s"] ["t"] ⟨[], 0, 0, [], []⟩ "A.h" 3 =
      (⟨[(calc_lower_hash "A.h", ["t", "A.h"])], 0, 3, [], []⟩,
       some "failed to copy s/A.h to t/A.h") ∧
    ∃ e, finalize_splat ⟨["c"], ["s"], ["u"]⟩ [(calc_lower_hash "A.h", ["t", "A.h"])]
        (fun _ => none) (fun _ => true) = .error e := by
  have h := c9_registry_entry_survives_failed_transfer ⟨false, false, false, false, ["o"], true⟩
    (fun op => match op with | FsOp.copyFile _ _ => false | _ => true)
    ["s"] ["t"] ⟨[], 0, 0, [], []⟩ "A.h" 3 rfl rfl
  exact ⟨h.1.trans (by decide), h.2 ⟨["c"], ["s"], ["u"]⟩ _ _ _ (by simp [pjoin]) rfl⟩

/-- C2 amended: for an SdkLibs/SdkStoreLibs file whose name contains an
uppercase ASCII character, the content is transferred to the original
mixed-case name and the symlink is created at the fully lowercased name
pointing to the original name. -/
theorem c2_sdklibs_lowercase_link_direction (config : SplatConfig) (fs : FsOracle)
    (kind : PayloadKind) (src tar : PathBuf) (st : EngineState) (fname : String) (size : Nat)
    (hk : kind = PayloadKind.SdkLibs ∨ kind = PayloadKind.SdkStoreLibs)
    (hu : hasAsciiUppercase fname = true)
    (ht : fs (if config.copy then FsOp.copyFile (pjoin src fname) (pjoin tar fname)
              else FsOp.renameFile (pjoin src fname) (pjoin tar fname)) = true)
    (hs : fs (FsOp.symlinkFile fname (pjoin tar (toAsciiLowerStr fname))) = true) :
    processFile config fs kind src tar st fname size =
      ({ st with progress := st.progress + size,
                 trace := st.trace ++
                   [if config.copy then FsOp.copyFile (pjoin src fname) (pjoin tar fname)
                    else FsOp.renameFile (pjoin src fname) (pjoin tar fname),
                    FsOp.symlinkFile fname (pjoin tar (toAsciiLowerStr fname))] }, none) := by
  have hpp : ppop (pjoin tar fname) = tar := by simp [ppop, pjoin]
  rcases hk with rfl | rfl <;> cases hc : config.copy <;> simp [hc] at ht <;>
    simp [processFile, attemptOp, hc, hu, hpp, ht, hs]

/-- C2 witness: the concrete SdkLibs file Foo.Lib. -/
theorem c2_witness :
    hasAsciiUppercase "Foo.Lib" = true ∧
    processFile ⟨false, false, false, false, ["o"], true⟩ (fun _ => true) PayloadKind.SdkLibs
        ["s"] ["t"] ⟨[], 0, 0, [], []⟩ "Foo.Lib" 4 =
      (⟨[], 0, 4, [FsOp.copyFile ["s", "Foo.Lib"] ["t", "Foo.Lib"],
                   FsOp.symlinkFile "Foo.Lib" ["t", "foo.lib"]], []⟩, none) := by
  refine ⟨by decide, ?_⟩
  have h := c2_sdklibs_lowercase_link_direction ⟨false, false, false, false, ["o"], true⟩
    (fun _ => true) PayloadKind.SdkLibs ["s"] ["t"] ⟨[], 0, 0, [], []⟩ "Foo.Lib" 4
    (Or.inl rfl) (by decide) rfl rfl
  exact h.trans (by decide)

/-- C8: CrtLibs destination paths: crt/lib, then a spectre segment
exactly when the requested variant set has the Spectre bit (for Desktop
and OneCore), then onecore for the OneCore variant, nothing extra for
Store, then the architecture segment; a missing variant or missing
architecture aborts with an error. -/
theorem c8_crtlibs_mapping_paths (config : SplatConfig) (roots : SplatRoots)
    (payload : Payload) (tree : FileTree) (arches variants : Nat)
    (hk : payload.kind = PayloadKind.CrtLibs) :
    (payload.variant = none →
      resolveMappings config roots payload tree arches variants =
        .error "CRT libs did not specify a variant") ∧
    (∀ v, payload.variant = some v → v ≠ Variant.Spectre → payload.target_arch = none →
      resolveMappings config roots payload tree arches variants =
        .error "CRT libs did not specify an architecture") ∧
    (∀ a sub, payload.variant = some Variant.Desktop → payload.target_arch = some a →
      tree.subtree (["lib"] ++ (if variants &&& Variant.Spectre.asU32 ≠ 0 then ["spectre"] else []) ++
          [a.as_ms_str]) = some sub →
      resolveMappings config roots payload tree arches variants =
        .ok [⟨roots.src ++ [payload.filename, "lib"] ++
                (if variants &&& Variant.Spectre.asU32 ≠ 0 then ["spectre"] else []) ++ [a.as_ms_str],
              roots.crt ++ ["lib"] ++
                (if variants &&& Variant.Spectre.asU32 ≠ 0 then ["spectre"] else []) ++
                [archOut config a],
              sub, payload.kind, payload.variant⟩]) ∧
    (∀ a sub, payload.variant = some Variant.OneCore → payload.target_arch = some a →
      tree.subtree (["lib"] ++ (if variants &&& Variant.Spectre.asU32 ≠ 0 then ["spectre"] else []) ++
          ["onecore", a.as_ms_str]) = some sub →
      resolveMappings config roots payload tree arches variants =
        .ok [⟨roots.src ++ [payload.filename, "lib"] ++
                (if variants &&& Variant.Spectre.asU32 ≠ 0 then ["spectre"] else []) ++
                ["onecore", a.as_ms_str],
              roots.crt ++ ["lib"] ++
                (if variants &&& Variant.Spectre.asU32 ≠ 0 then ["spectre"] else []) ++
                ["onecore", archOut config a],
              sub, payload.kind, payload.variant⟩]) ∧
    (∀ a sub, payload.variant = some Variant.Store → payload.target_arch = some a →
      tree.subtree ["lib", a.as_ms_str] = some sub →
      resolveMappings config roots payload tree arches variants =
        .ok [⟨roots.src ++ [payload.filename, "lib", a.as_ms_str],
              roots.crt ++ ["lib", archOut config a],
              sub, payload.kind, payload.variant⟩]) := by
  refine ⟨?_, ?_, ?_, ?_, ?_⟩
  · intro hv
    simp [resolveMappings, hk, hv]
  · intro v hv hvs ha
    cases v with
    | Spectre => exact absurd rfl hvs
    | Desktop => simp [resolveMappings, hk, hv, ha]
    | OneCore => simp [resolveMappings, hk, hv, ha]
    | Store => simp [resolveMappings, hk, hv, ha]
  · intro a sub hv ha hsub
    by_cases hsp : variants &&& Variant.Spectre.asU32 ≠ 0 <;>
      simp [hsp] at hsub <;>
      simp [resolveMappings, hk, hv, ha, hsp, get_tree, pjoin, List.append_assoc,
        stripPathPre_append, stripPathPre, hsub]
  · intro a sub hv ha hsub
    by_cases hsp : variants &&& Variant.Spectre.asU32 ≠ 0 <;>
      simp [hsp] at hsub <;>
      simp [resolveMappings, hk, hv, ha, hsp, get_tree, pjoin, List.append_assoc,
        stripPathPre_append, stripPathPre, hsub]
  · intro a sub hv ha hsub
    simp [resolveMappings, hk, hv, ha, get_tree, pjoin, List.append_assoc,
      stripPathPre_append, stripPathPre, hsub]

/-- C8 witness: a Desktop CrtLibs payload, x86_64, no Spectre bit. -/
theorem c8_witness :
    resolveMappings ⟨false, false, false, false, ["o"], true⟩ ⟨["c"], ["s"], ["u"]⟩
        ⟨"crt", PayloadKind.CrtLibs, some Variant.Desktop, some Arch.x86_64⟩
        (FileTree.mk [] [("lib", FileTree.mk [] [("x64", FileTree.mk [("a.lib", 1)] [])])]) 0 0 =
      .ok [⟨["u", "crt", "lib", "x64"], ["c", "lib", "x86_64"], FileTree.mk [("a.lib", 1)] [],
            PayloadKind.CrtLibs, some Variant.Desktop⟩] :=
  (c8_crtlibs_mapping_paths ⟨false, false, false, false, ["o"], true⟩ ⟨["c"], ["s"], ["u"]⟩
      ⟨"crt", PayloadKind.CrtLibs, some Variant.Desktop, some Arch.x86_64⟩
      (FileTree.mk [] [("lib", FileTree.mk [] [("x64", FileTree.mk [("a.lib", 1)] [])])]) 0 0
      rfl).2.2.1 Arch.x86_64 (FileTree.mk [("a.lib", 1)] []) rfl rfl rfl

/-- C7: during the finalize pass, a captured include target with
non-UTF-8 bytes aborts the whole pass with the encoding error, for any
symlink oracle; when every capture decodes, the pass succeeds even if
names miss the registry; and a working-set name whose DedupKey has no
registry entry is only logged and receives no symlink — every symlink
the resolution loop emits carries a name that was found. -/
theorem c7_finalize_encoding_vs_missing (roots : SplatRoots) (files : List (Nat × PathBuf))
    (fsRead : PathBuf → Option (List Nat))
    (hread : ∀ p ∈ files.map Prod.snd, ∃ c, fsRead p = some c) :
    ((∃ p ∈ files.map Prod.snd, ∃ c, fsRead p = some c ∧
        ∃ cap ∈ scanCaptures c, utf8ToStr cap = none) →
      ∀ fsl, ∃ q, finalize_splat roots files fsRead fsl =
        .error (pathStr q ++ " contained an include with non-utf8 characters")) ∧
    ((∀ p c, p ∈ files.map Prod.snd → fsRead p = some c →
        ∀ cap ∈ scanCaptures c, utf8ToStr cap ≠ none) →
      ∃ res, finalize_splat roots files fsRead (fun _ => true) = .ok res) ∧
    (∀ (names : List String) (n : String), n ∈ names →
      assocFind files (calc_lower_hash n) = none →
      ("SDK include for " ++ n ++ " was not found in the SDK headers") ∈
        (resolveIncludes (fun _ => true) files ([], []) names).1.2 ∧
      ∀ op ∈ (resolveIncludes (fun _ => true) files ([], []) names).1.1,
        ∀ orig link, op = FsOp.symlinkFile orig link → plast link ≠ some n) := by
  refine ⟨?_, ?_, ?_⟩
  · intro hex fsl
    obtain ⟨q, hq⟩ := scanFiles_err_enc fsRead (files.map Prod.snd) (seedIncludes files)
      hread hex
    exact ⟨q, by simp [finalize_splat, hq]⟩
  · intro hgood
    obtain ⟨incs2, hok⟩ := scanFiles_ok fsRead (files.map Prod.snd) (seedIncludes files)
      hread hgood
    have hr2 : (resolveIncludes (fun _ => true) files ([], []) incs2).2 = none :=
      resolveIncludes_true_ok files incs2 ([], [])
    rcases hri : resolveIncludes (fun _ => true) files ([], []) incs2 with ⟨acc, r⟩
    rw [hri] at hr2
    simp only at hr2
    subst hr2
    exact ⟨(acc.1 ++ [FsOp.symlinkFile "gl"
        (pjoin (pjoin (pjoin roots.sdk "include") "um") "GL")], acc.2),
      by simp [finalize_splat, hok, hri]⟩
  · intro names n hn hmiss
    refine ⟨resolveIncludes_miss_logged files names ([], []) n hn hmiss, ?_⟩
    intro op hop orig link heq hlast
    obtain ⟨n2, hn2, hfound⟩ := resolveIncludes_ops_found files names ([], [])
      (by intro op hop2; cases hop2) op hop orig link heq
    rw [hlast] at hn2
    cases hn2
    exact hfound hmiss

/-- C7 witness: one registered header whose content holds a well-formed
include of a name absent from the registry; the pass succeeds. -/
theorem c7_witness :
    ∃ res, finalize_splat ⟨["c"], ["s"], ["u"]⟩
        [(calc_lower_hash "a.h", ["s", "include", "a.h"])]
        (fun p => if p = ["s", "include", "a.h"]
                  then some (("#include \"Missing.h\"").data.map Char.toNat) else none)
        (fun _ => true) = .ok res := by
  have hread : ∀ p ∈ ([(calc_lower_hash "a.h", (["s", "include", "a.h"] : PathBuf))].map
      Prod.snd), ∃ c, (fun (p : PathBuf) => if p = ["s", "include", "a.h"]
        then some (("#include \"Missing.h\"").data.map Char.toNat) else none) p = some c := by
    intro p hp
    simp at hp
    subst hp
    exact ⟨_, rfl⟩
  refine (c7_finalize_encoding_vs_missing ⟨["c"], ["s"], ["u"]⟩
    [(calc_lower_hash "a.h", ["s", "include", "a.h"])] _ hread).2.1 ?_
  intro p c hp hc
  simp at hp
  subst hp
  rw [if_pos rfl] at hc
  cases hc
  decide

/-- C5: a failing transfer aborts its mapping with a context-carrying IO
error, but splat discards the collected per-mapping Results and returns
Ok: at this concrete input the single mapping fails with the copy error
yet splat returns Ok carrying that swallowed result. -/
theorem c5_splat_swallows_mapping_errors :
    splat ⟨false, false, false, false, ["o"], true⟩ ⟨["o", "crt"], ["o", "sdk"], ["w", "u"]⟩
        ⟨"f", PayloadKind.CrtHeaders, none, none⟩
        (FileTree.mk [] [("include", FileTree.mk [("a.h", 5)] [])]) 0 0
        (fun op => match op with | FsOp.copyFile _ _ => false | _ => true)
        ⟨[], 0, 0, [], []⟩ =
      .ok ⟨⟨[], 5, 5, [FsOp.createDirAll ["o", "crt", "include"]], []⟩,
           [some "failed to copy w/u/f/include/a.h to o/crt/include/a.h"]⟩ := by rfl

end Xwin
